import Mathlib

/-!
Verification of the CircleGFX rendering engine (framebuffer back-end of
`GFX.cpp` / `GFX.h`) against its natural-language specification.

The C++ code is shallowly embedded: the pixel surface becomes a record with an
explicit width, height and a pixel map; `int16_t` arithmetic that can overflow
is modelled with an explicit two's-complement truncation (`wrap16`); loops
become structural recursions or folds over `List.range`; undefined behaviour
(division by zero, out-of-bounds array reads) is modelled by `Option`-valued
functions returning `none` at the offending input.
-/

/-- Two's-complement truncation of an `Int` into the `int16_t` range
`[-32768, 32767]`, used exactly where the C code stores an `int`-typed
expression into an `int16_t` variable. -/
def wrap16 (n : Int) : Int := (n + 32768) % 65536 - 32768

/-- The pixel surface of the framebuffer back-end: `m_width`, `m_height` and
the pixel storage.  The C code stores RGB565 pixels (`uint16_t`) at
`m_pBuffer[y * (m_pitch/2) + x]`; rows are modelled as the second index of a
two-dimensional map (the pitch is only an addressing detail, each in-bounds
`(x, y)` names one distinct `uint16_t` cell).  Pixel values are `Nat`
(always written and read as 16-bit values by the code). -/
structure Surface where
  W : Int
  H : Int
  pix : Int → Int → Nat

/-- `CircleGFX::writePixel` (the bounds check) composed with the framebuffer
`CircleGFX::setPixel` (which repeats the same bounds check and then stores
the value).  `m_pBuffer` is taken to be non-null. -/
def writePixel (s : Surface) (x y : Int) (c : Nat) : Surface :=
  if x < 0 ∨ s.W ≤ x ∨ y < 0 ∨ s.H ≤ y then s
  else { s with pix := fun a b => if a = x ∧ b = y then c else s.pix a b }

/-- The `for (int16_t i = xs; i < xe; i++) writePixel(i, y, color);` loop of
`CircleGFX::writeFastHLine`, with the trip count `(xe - xs).toNat` made
explicit. -/
def hlineLoop (s : Surface) (y : Int) (i : Int) (n : Nat) (c : Nat) : Surface :=
  match n with
  | 0 => s
  | m+1 => hlineLoop (writePixel s i y c) y (i + 1) m c

/-- `CircleGFX::writeFastHLine`: reject an out-of-bounds row, clip the column
range to `[MAX(0,x), MIN(m_width, (int16_t)(x+w)))` and write every pixel in
it.  The cast of `x + w` back to `int16_t` is the `wrap16`. -/
def writeFastHLine (s : Surface) (x y w : Int) (c : Nat) : Surface :=
  if y < 0 ∨ s.H ≤ y then s
  else
    let xs := max 0 x
    let xe := min s.W (wrap16 (x + w))
    hlineLoop s y xs (xe - xs).toNat c

/-- The row loop of the framebuffer `CircleGFX::writeFillRect`
(`for (int16_t i = y; i < y + h; i++) writeFastHLine(x, i, w, color);`),
with the trip count `h.toNat` explicit (the comparison `i < y + h` happens
at `int` width, so the loop runs exactly `h` times for `h ≥ 0`). -/
def fillRectLoop (s : Surface) (x : Int) (i : Int) (w : Int) (c : Nat) : Nat → Surface
  | 0 => s
  | m+1 => fillRectLoop (writeFastHLine s x i w c) x (i + 1) w c m

/-- Framebuffer `CircleGFX::writeFillRect`. -/
def writeFillRect (s : Surface) (x y w h : Int) (c : Nat) : Surface :=
  fillRectLoop s x y w c h.toNat

/-- Concrete 100x10 all-zero surface used for counterexample evaluations. -/
def surfC7 : Surface := ⟨100, 10, fun _ _ => 0⟩

-- ══════════════════════════════════════════════════════════════════════════
-- Theorems
-- ══════════════════════════════════════════════════════════════════════════

theorem wrap16_eq_self (n : Int) (h1 : -32768 ≤ n) (h2 : n ≤ 32767) : wrap16 n = n := by
  unfold wrap16
  have h : (n + 32768) % 65536 = n + 32768 := Int.emod_eq_of_lt (by omega) (by omega)
  omega

@[simp] theorem writePixel_W (s : Surface) (x y : Int) (c : Nat) :
    (writePixel s x y c).W = s.W := by
  unfold writePixel; split <;> rfl

@[simp] theorem writePixel_H (s : Surface) (x y : Int) (c : Nat) :
    (writePixel s x y c).H = s.H := by
  unfold writePixel; split <;> rfl

theorem writePixel_pix (s : Surface) (x y : Int) (c : Nat) (a b : Int) :
    (writePixel s x y c).pix a b =
      if a = x ∧ b = y ∧ 0 ≤ x ∧ x < s.W ∧ 0 ≤ y ∧ y < s.H then c else s.pix a b := by
  unfold writePixel
  split
  · rename_i h
    rw [if_neg (by omega)]
  · rename_i h
    show (if a = x ∧ b = y then c else s.pix a b) = _
    split_ifs <;> first | rfl | omega

@[simp] theorem hlineLoop_W (y i : Int) (c : Nat) : ∀ (n : Nat) (s : Surface),
    (hlineLoop s y i n c).W = s.W := by
  intro n
  induction n generalizing i with
  | zero => intro s; rfl
  | succ m ih => intro s; rw [hlineLoop, ih]; simp

@[simp] theorem hlineLoop_H (y i : Int) (c : Nat) : ∀ (n : Nat) (s : Surface),
    (hlineLoop s y i n c).H = s.H := by
  intro n
  induction n generalizing i with
  | zero => intro s; rfl
  | succ m ih => intro s; rw [hlineLoop, ih]; simp

theorem hlineLoop_pix (y : Int) (c : Nat) : ∀ (n : Nat) (s : Surface) (i : Int),
    0 ≤ i → i + n ≤ s.W → 0 ≤ y → y < s.H →
    ∀ a b : Int, (hlineLoop s y i n c).pix a b =
      if b = y ∧ i ≤ a ∧ a < i + n then c else s.pix a b := by
  intro n
  induction n with
  | zero =>
    intro s i _ _ _ _ a b
    rw [hlineLoop, if_neg]
    omega
  | succ m ih =>
    intro s i hi hin hy1 hy2 a b
    rw [hlineLoop]
    rw [ih (writePixel s i y c) (i + 1) (by omega) (by simp; omega)
      (by simpa using hy1) (by simpa using hy2) a b]
    rw [writePixel_pix]
    split_ifs <;> first | rfl | omega

/-- Full characterization of `writeFastHLine` in the absence of `int16_t`
overflow of `x + w`. -/
theorem writeFastHLine_pix (s : Surface) (x y w : Int) (c : Nat)
    (hxw1 : -32768 ≤ x + w) (hxw2 : x + w ≤ 32767) :
    ∀ a b : Int, (writeFastHLine s x y w c).pix a b =
      if 0 ≤ y ∧ y < s.H ∧ b = y ∧ max 0 x ≤ a ∧ a < min s.W (x + w) then c
      else s.pix a b := by
  intro a b
  unfold writeFastHLine
  by_cases hy : y < 0 ∨ s.H ≤ y
  · rw [if_pos hy, if_neg]
    rintro ⟨h1, h2, -⟩
    omega
  · rw [if_neg hy]
    simp only
    rw [wrap16_eq_self _ hxw1 hxw2]
    by_cases hx : min s.W (x + w) ≤ max 0 x
    · have h0 : (min s.W (x + w) - max 0 x).toNat = 0 := by omega
      rw [h0, hlineLoop, if_neg]
      rintro ⟨-, -, -, h4, h5⟩
      omega
    · rw [hlineLoop_pix y c _ s (max 0 x) (by omega) (by omega) (by omega) (by omega)]
      have he : (max 0 x : Int) + ((min s.W (x + w) - max 0 x).toNat : Int)
          = min s.W (x + w) := by omega
      rw [he]
      by_cases hcond : b = y ∧ max 0 x ≤ a ∧ a < min s.W (x + w)
      · rw [if_pos hcond, if_pos ⟨by omega, by omega, hcond.1, hcond.2.1, hcond.2.2⟩]
      · rw [if_neg hcond, if_neg (by rintro ⟨-, -, h3, h4, h5⟩; exact hcond ⟨h3, h4, h5⟩)]

/-- C7, corrected statement.  `fillRowSpan` = `writeFastHLine`.  The claim's
column range `[max(0,x), min(width, x+w))` is what the code computes only
when `x + w` does not overflow `int16_t`; under that hypothesis the claim
holds verbatim: an in-bounds row gets `color` on exactly the clipped range
with every other pixel unchanged, and an out-of-bounds row leaves the whole
surface unchanged. -/
theorem C7_amended (s : Surface) (x y w : Int) (c : Nat)
    (hxw1 : -32768 ≤ x + w) (hxw2 : x + w ≤ 32767) :
    (0 ≤ y ∧ y < s.H →
      (∀ a : Int, max 0 x ≤ a → a < min s.W (x + w) → (writeFastHLine s x y w c).pix a y = c) ∧
      (∀ a b : Int, ¬(b = y ∧ max 0 x ≤ a ∧ a < min s.W (x + w)) →
        (writeFastHLine s x y w c).pix a b = s.pix a b)) ∧
    (y < 0 ∨ s.H ≤ y → ∀ a b : Int, (writeFastHLine s x y w c).pix a b = s.pix a b) := by
  constructor
  · intro hy
    constructor
    · intro a h1 h2
      rw [writeFastHLine_pix s x y w c hxw1 hxw2, if_pos ⟨hy.1, hy.2, rfl, h1, h2⟩]
    · intro a b hn
      rw [writeFastHLine_pix s x y w c hxw1 hxw2, if_neg]
      rintro ⟨-, -, h3, h4, h5⟩
      exact hn ⟨h3, h4, h5⟩
  · intro hy a b
    rw [writeFastHLine_pix s x y w c hxw1 hxw2, if_neg]
    rintro ⟨h1, h2, -⟩
    omega

/-- C7, counterexample to the claim as stated: on a 100x10 surface,
`writeFastHLine(50, 0, 32750, 5)` has `x + w = 32800`, which the code stores
into an `int16_t` as `-32736`; the clipped range becomes empty and nothing is
drawn, although the claim requires every pixel of `[50, 100) x {0}` — e.g.
pixel `(50, 0)`, which lies in `[max(0,50), min(100, 50+32750))` — to hold
color `5`. -/
theorem C7_counterexample :
    (0 : Int) ≤ 0 ∧ (0 : Int) < surfC7.H ∧
    max 0 (50 : Int) ≤ 50 ∧ (50 : Int) < min surfC7.W (50 + 32750) ∧
    (writeFastHLine surfC7 50 0 32750 5).pix 50 0 = 0 ∧ (0 : Nat) ≠ 5 := by
  refine ⟨by norm_num, by norm_num [surfC7], by norm_num, by norm_num [surfC7], ?_, by norm_num⟩
  rfl

/-- C7, witness: the amended theorem applied on the 100x10 surface at
`x = 2, y = 1, w = 4`: pixel `(3, 1)` receives the color and pixel `(9, 9)`
is untouched. -/
theorem C7_witness :
    (writeFastHLine surfC7 2 1 4 7).pix 3 1 = 7 ∧
    (writeFastHLine surfC7 2 1 4 7).pix 9 9 = surfC7.pix 9 9 := by
  have h := C7_amended surfC7 2 1 4 7 (by norm_num) (by norm_num)
  constructor
  · exact (h.1 (by norm_num [surfC7])).1 3 (by norm_num) (by norm_num [surfC7])
  · exact (h.1 (by norm_num [surfC7])).2 9 9 (by norm_num)

-- ══════════════════════════════════════════════════════════════════════════
-- Rotation (setRotation / width / height)
-- ══════════════════════════════════════════════════════════════════════════

/-- The width/height/rotation state touched by `CircleGFX::setRotation`,
`width()` and `height()`. -/
structure RotState where
  W : Int
  H : Int
  rot : Nat

/-- `CircleGFX::setRotation`: `m_rotation = r % 4; if (m_rotation == 1 ||
m_rotation == 3) SWAP(m_width, m_height);` -/
def setRotationM (st : RotState) (r : Nat) : RotState :=
  let m := r % 4
  if m = 1 ∨ m = 3 then ⟨st.H, st.W, m⟩ else ⟨st.W, st.H, m⟩

/-- A finite sequence of `setRotation` calls. -/
def applyRotations (st : RotState) (rs : List Nat) : RotState :=
  rs.foldl setRotationM st

/-- Number of calls in the sequence whose step value is odd mod 4. -/
def countOddSteps (rs : List Nat) : Nat :=
  rs.countP (fun r => decide (r % 4 = 1 ∨ r % 4 = 3))

-- ══════════════════════════════════════════════════════════════════════════
-- Built-in 5x8 font and drawChar
-- ══════════════════════════════════════════════════════════════════════════

/-- The byte table `s_font` from `GFX.cpp` (96 glyphs of 5 column bytes,
characters 0x20 through 0x7F). -/
def sFont : List Nat := [
  0x00, 0x00, 0x00, 0x00, 0x00, 0x00, 0x00, 0x5F, 0x00, 0x00,
  0x00, 0x07, 0x00, 0x07, 0x00, 0x14, 0x7F, 0x14, 0x7F, 0x14,
  0x24, 0x2A, 0x7F, 0x2A, 0x12, 0x23, 0x13, 0x08, 0x64, 0x62,
  0x36, 0x49, 0x55, 0x22, 0x50, 0x00, 0x05, 0x03, 0x00, 0x00,
  0x00, 0x1C, 0x22, 0x41, 0x00, 0x00, 0x41, 0x22, 0x1C, 0x00,
  0x14, 0x08, 0x3E, 0x08, 0x14, 0x08, 0x08, 0x3E, 0x08, 0x08,
  0x00, 0x50, 0x30, 0x00, 0x00, 0x08, 0x08, 0x08, 0x08, 0x08,
  0x00, 0x60, 0x60, 0x00, 0x00, 0x20, 0x10, 0x08, 0x04, 0x02,
  0x3E, 0x51, 0x49, 0x45, 0x3E, 0x00, 0x42, 0x7F, 0x40, 0x00,
  0x42, 0x61, 0x51, 0x49, 0x46, 0x21, 0x41, 0x45, 0x4B, 0x31,
  0x18, 0x14, 0x12, 0x7F, 0x10, 0x27, 0x45, 0x45, 0x45, 0x39,
  0x3C, 0x4A, 0x49, 0x49, 0x30, 0x01, 0x71, 0x09, 0x05, 0x03,
  0x36, 0x49, 0x49, 0x49, 0x36, 0x06, 0x49, 0x49, 0x29, 0x1E,
  0x00, 0x36, 0x36, 0x00, 0x00, 0x00, 0x56, 0x36, 0x00, 0x00,
  0x08, 0x14, 0x22, 0x41, 0x00, 0x14, 0x14, 0x14, 0x14, 0x14,
  0x00, 0x41, 0x22, 0x14, 0x08, 0x02, 0x01, 0x51, 0x09, 0x06,
  0x32, 0x49, 0x79, 0x41, 0x3E, 0x7E, 0x11, 0x11, 0x11, 0x7E,
  0x7F, 0x49, 0x49, 0x49, 0x36, 0x3E, 0x41, 0x41, 0x41, 0x22,
  0x7F, 0x41, 0x41, 0x22, 0x1C, 0x7F, 0x49, 0x49, 0x49, 0x41,
  0x7F, 0x09, 0x09, 0x09, 0x01, 0x3E, 0x41, 0x49, 0x49, 0x7A,
  0x7F, 0x08, 0x08, 0x08, 0x7F, 0x00, 0x41, 0x7F, 0x41, 0x00,
  0x20, 0x40, 0x41, 0x3F, 0x01, 0x7F, 0x08, 0x14, 0x22, 0x41,
  0x7F, 0x40, 0x40, 0x40, 0x40, 0x7F, 0x02, 0x0C, 0x02, 0x7F,
  0x7F, 0x04, 0x08, 0x10, 0x7F, 0x3E, 0x41, 0x41, 0x41, 0x3E,
  0x7F, 0x09, 0x09, 0x09, 0x06, 0x3E, 0x41, 0x51, 0x21, 0x5E,
  0x7F, 0x09, 0x19, 0x29, 0x46, 0x46, 0x49, 0x49, 0x49, 0x31,
  0x01, 0x01, 0x7F, 0x01, 0x01, 0x3F, 0x40, 0x40, 0x40, 0x3F,
  0x1F, 0x20, 0x40, 0x20, 0x1F, 0x3F, 0x40, 0x38, 0x40, 0x3F,
  0x63, 0x14, 0x08, 0x14, 0x63, 0x07, 0x08, 0x70, 0x08, 0x07,
  0x61, 0x51, 0x49, 0x45, 0x43, 0x00, 0x7F, 0x41, 0x41, 0x00,
  0x02, 0x04, 0x08, 0x10, 0x20, 0x00, 0x41, 0x41, 0x7F, 0x00,
  0x04, 0x02, 0x01, 0x02, 0x04, 0x40, 0x40, 0x40, 0x40, 0x40,
  0x00, 0x01, 0x02, 0x04, 0x00, 0x20, 0x54, 0x54, 0x54, 0x78,
  0x7F, 0x48, 0x44, 0x44, 0x38, 0x38, 0x44, 0x44, 0x44, 0x20,
  0x38, 0x44, 0x44, 0x48, 0x7F, 0x38, 0x54, 0x54, 0x54, 0x18,
  0x08, 0x7E, 0x09, 0x01, 0x02, 0x0C, 0x52, 0x52, 0x52, 0x3E,
  0x7F, 0x08, 0x04, 0x04, 0x78, 0x00, 0x44, 0x7D, 0x40, 0x00,
  0x20, 0x40, 0x44, 0x3D, 0x00, 0x7F, 0x10, 0x28, 0x44, 0x00,
  0x00, 0x41, 0x7F, 0x40, 0x00, 0x7C, 0x04, 0x18, 0x04, 0x78,
  0x7C, 0x08, 0x04, 0x04, 0x78, 0x38, 0x44, 0x44, 0x44, 0x38,
  0x7C, 0x14, 0x14, 0x14, 0x08, 0x08, 0x14, 0x14, 0x18, 0x7C,
  0x7C, 0x08, 0x04, 0x04, 0x08, 0x48, 0x54, 0x54, 0x54, 0x20,
  0x04, 0x3F, 0x44, 0x40, 0x20, 0x3C, 0x40, 0x40, 0x20, 0x7C,
  0x1C, 0x20, 0x40, 0x20, 0x1C, 0x3C, 0x40, 0x30, 0x40, 0x3C,
  0x44, 0x28, 0x10, 0x28, 0x44, 0x0C, 0x50, 0x50, 0x50, 0x3C,
  0x44, 0x64, 0x54, 0x4C, 0x44, 0x00, 0x08, 0x36, 0x41, 0x00,
  0x00, 0x00, 0x7F, 0x00, 0x00, 0x00, 0x41, 0x36, 0x08, 0x00,
  0x10, 0x08, 0x08, 0x10, 0x08, 0x78, 0x46, 0x41, 0x46, 0x78]

/-- `glyph[col]`, i.e. `s_font[(c - 32) * 5 + col]`. -/
def fontByte (c col : Nat) : Nat := sFont.getD ((c - 32) * 5 + col) 0

/-- One column of the default-font glyph loop of `CircleGFX::drawChar`:
`for (row...) { px = (bits & 1) ? color : bg; ...; bits >>= 1 }`, where the
pixel for row `row` uses bit `row` of the column byte, drawn either as one
pixel (`size 1x1`) or as a `size_x` by `size_y` block. -/
def drawColRows (t : Surface) (x y : Int) (col : Nat) (byte : Nat)
    (color bg : Nat) (sx sy : Nat) : Surface :=
  (List.range 8).foldl (fun t2 row =>
    let px := if (byte >>> row) % 2 = 1 then color else bg
    if sx = 1 ∧ sy = 1 then writePixel t2 (x + col) (y + row) px
    else writeFillRect t2 (x + col * sx) (y + row * sy) sx sy px) t

/-- `CircleGFX::drawChar` for the default (built-in) font: the clip test, the
`'?'` substitution for codes outside 32..126, the five glyph columns, then
the unconditional column-6 spacer drawn with `bg`. -/
def drawCharB (s : Surface) (x y : Int) (c : Nat) (color bg : Nat)
    (sx sy : Nat) : Surface :=
  if s.W ≤ x ∨ s.H ≤ y ∨ x + 6 * (sx : Int) - 1 < 0 ∨ y + 8 * (sy : Int) - 1 < 0 then s
  else
    let cc := if c < 32 ∨ 126 < c then 63 else c
    let s1 := (List.range 5).foldl
      (fun t col => drawColRows t x y col (fontByte cc col) color bg sx sy) s
    (List.range 8).foldl (fun t (row : Nat) =>
      if sx = 1 ∧ sy = 1 then writePixel t (x + 5) (y + (row : Int)) bg
      else writeFillRect t (x + 5 * (sx : Int)) (y + (row : Int) * (sy : Int))
        (sx : Int) (sy : Int) bg) s1

/-- Vertical run of `n` single-pixel writes of the constant value `v` at
column `cx`, rows `y` to `y + n - 1` (proof-normal form of the per-column
loops of `drawCharB` when `bg = color` and the size is 1x1). -/
def vWriteLoop (s : Surface) (cx y : Int) (v : Nat) : Nat → Surface
  | 0 => s
  | m+1 => writePixel (vWriteLoop s cx y v m) cx (y + m) v

/-- `k` consecutive glyph columns written with the constant value `v`. -/
def colChain (s : Surface) (x y : Int) (v : Nat) : Nat → Surface
  | 0 => s
  | k+1 => vWriteLoop (colChain s x y v k) (x + k) y v 8

/-- Concrete 8x8 surface holding 9 everywhere, for the C1 counterexample. -/
def surfC1 : Surface := ⟨8, 8, fun _ _ => 9⟩

-- ── Rotation theorems ──────────────────────────────────────────────────────

theorem applyRotations_dims (rs : List Nat) : ∀ st : RotState,
    (applyRotations st rs).W = (if countOddSteps rs % 2 = 0 then st.W else st.H) ∧
    (applyRotations st rs).H = (if countOddSteps rs % 2 = 0 then st.H else st.W) := by
  induction rs with
  | nil => intro st; simp [applyRotations, countOddSteps]
  | cons r rs ih =>
    intro st
    have h1 := ih (setRotationM st r)
    unfold applyRotations at h1 ⊢
    rw [List.foldl_cons]
    have hW : (setRotationM st r).W = if r % 4 = 1 ∨ r % 4 = 3 then st.H else st.W := by
      show (if r % 4 = 1 ∨ r % 4 = 3 then (⟨st.H, st.W, r % 4⟩ : RotState)
        else ⟨st.W, st.H, r % 4⟩).W = _
      split_ifs <;> rfl
    have hH : (setRotationM st r).H = if r % 4 = 1 ∨ r % 4 = 3 then st.W else st.H := by
      show (if r % 4 = 1 ∨ r % 4 = 3 then (⟨st.H, st.W, r % 4⟩ : RotState)
        else ⟨st.W, st.H, r % 4⟩).H = _
      split_ifs <;> rfl
    have hc : countOddSteps (r :: rs)
        = countOddSteps rs + (if r % 4 = 1 ∨ r % 4 = 3 then 1 else 0) := by
      unfold countOddSteps
      rw [List.countP_cons]
      by_cases h : r % 4 = 1 ∨ r % 4 = 3 <;> simp [h]
    rw [hc, h1.1, h1.2, hW, hH]
    constructor <;> split_ifs <;> first | rfl | omega

/-- C9, amended.  `setRotation` swaps the currently-reported width/height on
every call whose step is 1 or 3 mod 4 (it keeps no record of the
construction-time dimensions), so after a sequence of calls the reported
dimensions equal the construction-time ones exactly when the number of
odd-step calls in the sequence is even, and equal them swapped when that
number is odd — the final rotation value alone does not determine them. -/
theorem C9_amended (W0 H0 : Int) (r0 : Nat) (rs : List Nat) :
    (applyRotations ⟨W0, H0, r0⟩ rs).W =
      (if countOddSteps rs % 2 = 0 then W0 else H0) ∧
    (applyRotations ⟨W0, H0, r0⟩ rs).H =
      (if countOddSteps rs % 2 = 0 then H0 else W0) :=
  applyRotations_dims rs ⟨W0, H0, r0⟩

/-- C9, counterexample to the claim as stated: construct with dimensions
4x3, call `setRotation(1)` then `setRotation(3)`.  The final rotation is 3
(odd), so the claim requires the reported dimensions to be the construction
dimensions swapped (3x4); the code reports 4x3 because each odd-step call
swapped once and the two swaps cancelled. -/
theorem C9_counterexample :
    (applyRotations ⟨4, 3, 0⟩ [1, 3]).rot = 3 ∧
    (applyRotations ⟨4, 3, 0⟩ [1, 3]).rot % 2 = 1 ∧
    (applyRotations ⟨4, 3, 0⟩ [1, 3]).W = 4 ∧
    (applyRotations ⟨4, 3, 0⟩ [1, 3]).H = 3 ∧
    ¬((applyRotations ⟨4, 3, 0⟩ [1, 3]).W = 3 ∧
      (applyRotations ⟨4, 3, 0⟩ [1, 3]).H = 4) := by
  decide

-- ── drawChar (built-in font) theorems ──────────────────────────────────────

@[simp] theorem vWriteLoop_W (cx y : Int) (v : Nat) : ∀ (n : Nat) (s : Surface),
    (vWriteLoop s cx y v n).W = s.W := by
  intro n
  induction n with
  | zero => intro s; rfl
  | succ m ih => intro s; rw [vWriteLoop, writePixel_W, ih]

@[simp] theorem vWriteLoop_H (cx y : Int) (v : Nat) : ∀ (n : Nat) (s : Surface),
    (vWriteLoop s cx y v n).H = s.H := by
  intro n
  induction n with
  | zero => intro s; rfl
  | succ m ih => intro s; rw [vWriteLoop, writePixel_H, ih]

theorem vWriteLoop_pix (cx y : Int) (v : Nat) : ∀ (n : Nat) (s : Surface) (a b : Int),
    (vWriteLoop s cx y v n).pix a b =
      if a = cx ∧ y ≤ b ∧ b < y + n ∧ 0 ≤ cx ∧ cx < s.W ∧ 0 ≤ b ∧ b < s.H then v
      else s.pix a b := by
  intro n
  induction n with
  | zero =>
    intro s a b
    rw [vWriteLoop, if_neg]
    omega
  | succ m ih =>
    intro s a b
    rw [vWriteLoop, writePixel_pix]
    simp only [vWriteLoop_W, vWriteLoop_H]
    rw [ih]
    split_ifs <;> first | rfl | omega

@[simp] theorem colChain_W (x y : Int) (v : Nat) : ∀ (k : Nat) (s : Surface),
    (colChain s x y v k).W = s.W := by
  intro k
  induction k with
  | zero => intro s; rfl
  | succ m ih => intro s; rw [colChain, vWriteLoop_W, ih]

@[simp] theorem colChain_H (x y : Int) (v : Nat) : ∀ (k : Nat) (s : Surface),
    (colChain s x y v k).H = s.H := by
  intro k
  induction k with
  | zero => intro s; rfl
  | succ m ih => intro s; rw [colChain, vWriteLoop_H, ih]

theorem colChain_pix (x y : Int) (v : Nat) : ∀ (k : Nat) (s : Surface) (a b : Int),
    (colChain s x y v k).pix a b =
      if x ≤ a ∧ a < x + k ∧ y ≤ b ∧ b < y + 8 ∧ 0 ≤ a ∧ a < s.W ∧ 0 ≤ b ∧ b < s.H
      then v else s.pix a b := by
  intro k
  induction k with
  | zero =>
    intro s a b
    rw [colChain, if_neg]
    omega
  | succ m ih =>
    intro s a b
    rw [colChain, vWriteLoop_pix]
    simp only [colChain_W, colChain_H]
    rw [ih]
    split_ifs <;> first | rfl | omega

theorem foldl_fun_ext {a b : Type} (f g : a → b → a) (l : List b)
    (h : ∀ x y, f x y = g x y) : ∀ x : a, l.foldl f x = l.foldl g x := by
  induction l with
  | nil => intro x; rfl
  | cons e l ih =>
    intro x
    rw [List.foldl_cons, List.foldl_cons, h]
    exact ih _

theorem foldl_writePixel_range (cx y : Int) (v : Nat) : ∀ (n : Nat) (s : Surface),
    (List.range n).foldl (fun t (r : Nat) => writePixel t cx (y + (r : Int)) v) s
      = vWriteLoop s cx y v n := by
  intro n
  induction n with
  | zero => intro s; rfl
  | succ m ih =>
    intro s
    rw [List.range_succ m, List.foldl_append, ih]
    rfl

theorem drawColRows_const (t : Surface) (x y : Int) (col byte v : Nat) :
    drawColRows t x y col byte v v 1 1 = vWriteLoop t (x + col) y v 8 := by
  unfold drawColRows
  rw [← foldl_writePixel_range (x + col) y v 8 t]
  simp only [ite_self, and_self, if_pos]

theorem foldl_cols_const (x y : Int) (v : Nat) (g : Nat → Nat) : ∀ (n : Nat) (s : Surface),
    (List.range n).foldl (fun t col => drawColRows t x y col (g col) v v 1 1) s
      = colChain s x y v n := by
  intro n
  induction n with
  | zero => intro s; rfl
  | succ m ih =>
    intro s
    rw [List.range_succ m, List.foldl_append, ih]
    show drawColRows (colChain s x y v m) x y m (g m) v v 1 1 = _
    rw [drawColRows_const, colChain]

/-- C1, amended.  In the code of `drawChar` for the built-in font, the unset
bits of a glyph and the spacer column are written with `bg` unconditionally —
there is no `bg != color` test — so a call with `bg = color` overwrites the
entire in-bounds part of the 6x8 glyph cell with that common color instead of
leaving the uncovered pixels unchanged (stated for the unscaled
`size_x = size_y = 1` case; larger sizes do the same block-wise).  All pixels
outside the cell are unchanged. -/
theorem C1_amended (s : Surface) (x y : Int) (c : Nat) (color bg : Nat) (sx sy : Nat)
    (hbg : bg = color) (hsx : sx = 1) (hsy : sy = 1)
    (hx : x < s.W) (hy : y < s.H) (hxl : 0 ≤ x + 5) (hyl : 0 ≤ y + 7) :
    ∀ a b : Int, (drawCharB s x y c color bg sx sy).pix a b =
      if x ≤ a ∧ a < x + 6 ∧ y ≤ b ∧ b < y + 8 ∧ 0 ≤ a ∧ a < s.W ∧ 0 ≤ b ∧ b < s.H
      then color else s.pix a b := by
  subst hbg hsx hsy
  intro a b
  have key : drawCharB s x y c bg bg 1 1 = colChain s x y bg 6 := by
    unfold drawCharB
    rw [if_neg (by push_cast; omega)]
    simp only []
    rw [foldl_cols_const x y bg (fontByte (if c < 32 ∨ 126 < c then 63 else c)) 5 s]
    rw [foldl_fun_ext _ (fun t (r : Nat) => writePixel t (x + 5) (y + (r : Int)) bg)
      (List.range 8) (by intro t r; norm_num) (colChain s x y bg 5)]
    rw [foldl_writePixel_range (x + 5) y bg 8 (colChain s x y bg 5)]
    conv_rhs => rw [colChain]
    norm_num
  rw [key, colChain_pix]
  split_ifs <;> first | rfl | omega

set_option maxRecDepth 20000 in
/-- C1, counterexample to the claim as stated: on an 8x8 surface holding 9
everywhere, `drawChar(0, 0, ' ', 7, 7, 1, 1)` is a call with background
equal to foreground; the space glyph has no set bit (its column byte is 0),
so the claim requires pixel (0,0) to stay 9 — the code writes the background
color 7 there. -/
theorem C1_counterexample :
    fontByte 32 0 = 0 ∧
    surfC1.pix 0 0 = 9 ∧
    (drawCharB surfC1 0 0 32 7 7 1 1).pix 0 0 = 7 ∧ (7 : Nat) ≠ 9 := by
  refine ⟨by decide, rfl, ?_, by decide⟩
  decide

/-- C1, witness for the amended theorem: a concrete call with equal colors on
the 8x8 surface; a cell pixel becomes the common color and an outside pixel
keeps its old value. -/
theorem C1_witness :
    (drawCharB surfC1 1 1 65 3 3 1 1).pix 2 2 = 3 ∧
    (drawCharB surfC1 1 1 65 3 3 1 1).pix 0 0 = surfC1.pix 0 0 := by
  have h := C1_amended surfC1 1 1 65 3 3 1 1 rfl rfl rfl
    (by norm_num [surfC1]) (by norm_num [surfC1]) (by norm_num) (by norm_num)
  constructor
  · rw [h 2 2, if_pos]
    refine ⟨by norm_num, by norm_num, by norm_num, by norm_num, by norm_num, ?_, by norm_num, ?_⟩
      <;> norm_num [surfC1]
  · rw [h 0 0, if_neg]
    norm_num

-- ══════════════════════════════════════════════════════════════════════════
-- fillTriangle
-- ══════════════════════════════════════════════════════════════════════════

/-- One half of the `CircleGFX::fillTriangle` scanline loop
(`for (y = yStart; y <= yEnd; y++) { a = baseA + sa/dyA; b = baseB + sb/dyB;
sa += dxA; sb += dxB; if (a > b) SWAP(a,b); writeFastHLine(a, y, b-a+1); }`),
with the trip count `(yEnd - yStart + 1).toNat` made explicit.  The C `/` on
`int16_t`/`int32_t` truncates toward zero (`Int.tdiv`); a division whose
divisor is zero is undefined behaviour and is modelled as `none`. -/
def triLoop (s : Surface) (baseA dxA dyA baseB dxB dyB : Int)
    (sa sb : Int) (y : Int) (color : Nat) : Nat → Option Surface
  | 0 => some s
  | n+1 =>
    if dyA = 0 then none
    else if dyB = 0 then none
    else
      let a := baseA + Int.tdiv sa dyA
      let b := baseB + Int.tdiv sb dyB
      let lo := if a > b then b else a
      let hi := if a > b then a else b
      triLoop (writeFastHLine s lo y (hi - lo + 1) color)
        baseA dxA dyA baseB dxB dyB (sa + dxA) (sb + dxB) (y + 1) color n

/-- `CircleGFX::fillTriangle`: the three conditional swaps sorting the
vertices by y, the all-on-one-row special case, then the top half over rows
`y0 .. last` (with `last = (y1 == y2) ? y1 : y1 - 1`) interpolating the
`0-1` and `0-2` edges, and the bottom half over rows `y1 .. y2`
interpolating the `1-2` and `0-2` edges with `sa` reset to 0 and
`sb = dx02 * (y1 - y0)` (the transient dead store to `sa` in the source has
no observable effect).  Result is `none` when a scanline evaluates a
division with zero divisor. -/
def fillTriangle (s : Surface) (x0 y0 x1 y1 x2 y2 : Int) (color : Nat) : Option Surface :=
  let (x0, y0, x1, y1) := if y0 > y1 then (x1, y1, x0, y0) else (x0, y0, x1, y1)
  let (x1, y1, x2, y2) := if y1 > y2 then (x2, y2, x1, y1) else (x1, y1, x2, y2)
  let (x0, y0, x1, y1) := if y0 > y1 then (x1, y1, x0, y0) else (x0, y0, x1, y1)
  if y0 = y2 then
    let a := min x0 (min x1 x2)
    let b := max x0 (max x1 x2)
    some (writeFastHLine s a y0 (b - a + 1) color)
  else
    let dx01 := x1 - x0
    let dy01 := y1 - y0
    let dx02 := x2 - x0
    let dy02 := y2 - y0
    let dx12 := x2 - x1
    let dy12 := y2 - y1
    let last := if y1 = y2 then y1 else y1 - 1
    match triLoop s x0 dx01 dy01 x0 dx02 dy02 0 0 y0 color ((last - y0 + 1).toNat) with
    | none => none
    | some s1 =>
      triLoop s1 x1 dx12 dy12 x0 dx02 dy02 0 (dx02 * (y1 - y0)) y1 color ((y2 - y1 + 1).toNat)

/-- Concrete 10x10 all-zero surface for the triangle evaluation. -/
def surfTri : Surface := ⟨10, 10, fun _ _ => 0⟩

set_option maxRecDepth 40000 in
/-- C3: evaluation of the code at the failing input.  For the already-sorted
flat-bottom triangle `(0,0), (0,2), (2,2)` (so `y0 ≤ y1 ≤ y2` and not all
three are equal), `last = y1 = 2`, the top half fills rows 0..2, and the
bottom half then runs for row `y1 = 2` and evaluates `sa / dy12` with
`dy12 = y2 - y1 = 0`: a division by zero (the model returns `none`), and
row 2 is filled by both halves.  A triangle with `y1 < y2` is fine (second
conjunct). -/
theorem C3_thm :
    fillTriangle surfTri 0 0 0 2 2 2 5 = none ∧
    (fillTriangle surfTri 0 0 0 1 2 2 5).isSome = true := by
  constructor
  · rfl
  · rfl

-- ══════════════════════════════════════════════════════════════════════════
-- Custom fonts and writeText
-- ══════════════════════════════════════════════════════════════════════════

/-- `GFXglyph` from `GFX.h`. -/
structure GFXglyph where
  bitmapOffset : Nat
  width : Nat
  height : Nat
  xAdvance : Nat
  xOffset : Int
  yOffset : Int

/-- `GFXfont` from `GFX.h`.  `glyphs` is the glyph array as physically
allocated (a C array of unstated extent; a read outside it is undefined
behaviour). -/
structure GFXfont where
  bitmap : List Nat
  glyphs : List GFXglyph
  first : Nat
  last : Nat
  yAdvance : Nat

/-- `CircleGFX::drawChar` for a custom font: reject characters outside
`[first, last]`, then render the glyph bitmap (bit `k` of the stream is bit
`7 - k % 8` of byte `bitmapOffset + k / 8`), each set bit drawn as a pixel
(size 1x1) or a block.  `bg` is ignored on this path, as in the source. -/
def drawCharCustom (s : Surface) (f : GFXfont) (x y : Int) (c : Nat)
    (color : Nat) (sx sy : Nat) : Surface :=
  if c < f.first ∨ f.last < c then s
  else
    let ci := c - f.first
    let gl := (f.glyphs.getD ci ⟨0, 0, 0, 0, 0, 0⟩)
    let gx := x + gl.xOffset
    let gy := y + gl.yOffset
    (List.range gl.height).foldl (fun t gy2 =>
      (List.range gl.width).foldl (fun t2 gx2 =>
        let k := gy2 * gl.width + gx2
        let byte := f.bitmap.getD (gl.bitmapOffset + k / 8) 0
        if (byte >>> (7 - k % 8)) % 2 = 1 then
          (if sx = 1 ∧ sy = 1 then writePixel t2 (gx + (gx2 : Int)) (gy + (gy2 : Int)) color
           else writeFillRect t2 (gx + (gx2 : Int) * (sx : Int)) (gy + (gy2 : Int) * (sy : Int))
             (sx : Int) (sy : Int) color)
        else t2) t) s

/-- The text state of `CircleGFX` used by `writeText`. -/
structure GfxText where
  surf : Surface
  cursorX : Int
  cursorY : Int
  sizeX : Nat
  sizeY : Nat
  twrap : Bool
  textColor : Nat
  textBg : Nat
  font : Option GFXfont

/-- Processing of one input byte by `CircleGFX::writeText`.  `'\n'` resets x
and advances y; `'\r'` is skipped; any other byte first reads
`m_pFont->glyph[c - m_pFont->first].xAdvance` (custom font) — note the read
happens before any range check, so for `c` outside the physical glyph array
it is an out-of-bounds read, modelled as `none` — then wraps if needed,
draws via `drawChar` and advances the cursor. -/
def writeTextStep (g : GfxText) (c : Nat) : Option GfxText :=
  if c = 10 then
    let la : Nat := match g.font with
      | some f => f.yAdvance
      | none => 8
    some { g with cursorX := 0, cursorY := g.cursorY + (g.sizeY : Int) * (la : Int) }
  else if c = 13 then some g
  else
    match g.font with
    | none =>
      let adv : Int := 6
      let g1 := if g.twrap ∧ g.cursorX + (g.sizeX : Int) * adv > g.surf.W then
          { g with cursorX := 0, cursorY := g.cursorY + (g.sizeY : Int) * 8 }
        else g
      let s2 := drawCharB g1.surf g1.cursorX g1.cursorY c g.textColor g.textBg g.sizeX g.sizeY
      some { g1 with surf := s2, cursorX := g1.cursorX + (g.sizeX : Int) * adv }
    | some f =>
      let idx : Int := (c : Int) - (f.first : Int)
      if idx < 0 then none
      else
        match f.glyphs.get? idx.toNat with
        | none => none
        | some gl =>
          let adv : Int := gl.xAdvance
          let ny := g.cursorY + (g.sizeY : Int) * (f.yAdvance : Int)
          let g1 := if g.twrap ∧ g.cursorX + (g.sizeX : Int) * adv > g.surf.W then
              { g with cursorX := 0, cursorY := ny }
            else g
          let s2 := drawCharCustom g1.surf f g1.cursorX g1.cursorY c g.textColor g.sizeX g.sizeY
          some { g1 with surf := s2, cursorX := g1.cursorX + (g.sizeX : Int) * adv }

/-- `CircleGFX::writeText` over a whole byte string. -/
def writeText (g : GfxText) : List Nat → Option GfxText
  | [] => some g
  | c :: cs =>
    match writeTextStep g c with
    | none => none
    | some g1 => writeText g1 cs

/-- 100x50 surface holding 4 everywhere, for the writeText evaluation. -/
def surfText : Surface := ⟨100, 50, fun _ _ => 4⟩

/-- A custom font with range `[65, 66]` whose physical glyph array happens to
hold one extra entry (with `xAdvance = 11`) beyond the declared range. -/
def fontA : GFXfont := ⟨[], [⟨0, 0, 0, 10, 0, 0⟩, ⟨0, 0, 0, 12, 0, 0⟩, ⟨0, 0, 0, 11, 0, 0⟩], 65, 66, 9⟩

/-- The same font with a physical glyph array of exactly `last - first + 1`
entries. -/
def fontB : GFXfont := ⟨[], [⟨0, 0, 0, 10, 0, 0⟩, ⟨0, 0, 0, 12, 0, 0⟩], 65, 66, 9⟩

/-- A text state with `fontA` selected and the cursor at the origin. -/
def gTextA : GfxText := ⟨surfText, 0, 0, 1, 1, true, 1, 0, some fontA⟩

/-- The same text state with `fontB` selected. -/
def gTextB : GfxText := ⟨surfText, 0, 0, 1, 1, true, 1, 0, some fontB⟩

/-- C4: evaluation of the code at the failing input.  With a custom font of
range `[65, 66]`, `writeText` on byte 67 reads `glyph[67 - 65]` before any
range check.  If the physical array has a third entry (`fontA`), that
out-of-range glyph-table entry is read and the cursor advances by its
`xAdvance = 11` although `drawChar` draws nothing; if the array has exactly
two entries (`fontB`), the read itself is out of bounds (`none`).  The claim
requires the cursor to stay unchanged and the table not to be accessed. -/
theorem C4_thm :
    fontA.last = 66 ∧
    Option.map (fun g => g.cursorX) (writeTextStep gTextA 67) = some 11 ∧
    Option.map (fun g => g.surf.pix 0 0) (writeTextStep gTextA 67) = some (surfText.pix 0 0) ∧
    (writeTextStep gTextB 67).isNone = true := by
  refine ⟨rfl, by decide, by decide, by decide⟩

-- ══════════════════════════════════════════════════════════════════════════
-- Multi-buffer manager
-- ══════════════════════════════════════════════════════════════════════════

/-- A `FrameBuffer` slot from `GFX.h`: data pointer (`none` = `nullptr`),
ownership flag and ready flag. -/
structure FBSlot where
  pData : Option Nat
  bOwned : Bool
  bReady : Bool

/-- The multi-buffer state of `CircleGFX` (software back-end).  Pointers are
abstract addresses: the hardware framebuffer (`m_pFrameBuffer->GetBuffer()`,
also the initial `m_pBuffer`) is address 0, `malloc` hands out fresh
addresses 1, 2, ...; `live a` records whether address `a` is a currently
allocated (not yet freed) heap block; `mem a off` is the 16-bit pixel at
offset `off` of the block at `a`. -/
structure GfxMB where
  W : Nat
  H : Nat
  buffers : Nat → FBSlot
  bufferCount : Nat
  drawIdx : Nat
  dispIdx : Nat
  enabled : Bool
  pBuffer : Option Nat
  mem : Nat → Nat → Nat
  live : Nat → Bool
  nextAddr : Nat

/-- Pixels per buffer (`m_width * m_height`; each buffer is that many
16-bit pixels, i.e. `width*height*2` bytes). -/
def pixCount (st : GfxMB) : Nat := st.W * st.H

/-- Update one slot of the buffer array. -/
def setSlot (f : Nat → FBSlot) (i : Nat) (sl : FBSlot) : Nat → FBSlot :=
  fun j => if j = i then sl else f j

/-- `memset`/pixel-fill of the whole buffer at address `adr` with value `v`
(`bufferSize` = `pixCount` pixels; the code uses `memset` for 0 and an
explicit pixel loop for other colors — same effect on the pixel contents). -/
def memFill (st : GfxMB) (adr : Nat) (v : Nat) : GfxMB :=
  { st with mem := fun a =>
      if a = adr then (fun off => if off < pixCount st then v else st.mem a off)
      else st.mem a }

/-- `memcpy` of a full buffer (`width*height*2` bytes) from address `src` to
the hardware framebuffer (address 0). -/
def memCopyToHw (st : GfxMB) (src : Nat) : GfxMB :=
  { st with mem := fun a =>
      if a = 0 then (fun off => if off < pixCount st then st.mem src off else st.mem 0 off)
      else st.mem a }

/-- Copy-to-hardware guarded on the pointer being non-null (a null `pData`
would be undefined behaviour in the source; it does not occur in the states
the theorems quantify over). -/
def copyToHwIfSome (st : GfxMB) (o : Option Nat) : GfxMB :=
  match o with
  | some src => memCopyToHw st src
  | none => st

/-- Fill guarded on the pointer being non-null. -/
def fillIfSome (st : GfxMB) (o : Option Nat) (v : Nat) : GfxMB :=
  match o with
  | some adr => memFill st adr v
  | none => st

/-- The state right after the framebuffer constructor together with
`_initializeMultiBuffer` (whose name here drops the underscore prefix):
slot 0 non-owned at the hardware surface, one buffer, indices 0,
multi-buffering off. -/
def initMB (w h : Nat) (hw : Nat → Nat) : GfxMB where
  W := w
  H := h
  buffers := fun j => if j = 0 then ⟨some 0, false, false⟩ else ⟨none, false, false⟩
  bufferCount := 1
  drawIdx := 0
  dispIdx := 0
  enabled := false
  pBuffer := some 0
  mem := fun a => if a = 0 then hw else fun _ => 0
  live := fun _ => false
  nextAddr := 1

/-- Body of the free-existing-buffers loop of `enableMultiBuffer`:
`if (m_buffers[i].bOwned && m_buffers[i].pData != nullptr) { free(...);
pData = nullptr; bOwned = false; }`. -/
def freeSlotIfOwned (st : GfxMB) (i : Nat) : GfxMB :=
  let sl := st.buffers i
  match sl.pData with
  | some adr =>
    if sl.bOwned then
      { st with live := fun a => if a = adr then false else st.live a,
                buffers := setSlot st.buffers i ⟨none, false, sl.bReady⟩ }
    else st
  | none => st

/-- `for (i = 0; i < m_bufferCount; i++) ...` free loop, trip count made
explicit. -/
def freeOwnedLoop (st : GfxMB) (i : Nat) : Nat → GfxMB
  | 0 => st
  | n+1 => freeOwnedLoop (freeSlotIfOwned st i) (i + 1) n

/-- One successful `malloc` + bookkeeping of the allocation loop of
`enableMultiBuffer`: a fresh address becomes slot `i`, owned, not ready, and
is zero-filled (`memset(pData, 0, bufferSize)`). -/
def allocOne (st : GfxMB) (i : Nat) : GfxMB :=
  let adr := st.nextAddr
  { st with
    nextAddr := adr + 1,
    live := fun a => if a = adr then true else st.live a,
    mem := fun a =>
      if a = adr then (fun off => if off < pixCount st then 0 else st.mem a off)
      else st.mem a,
    buffers := setSlot st.buffers i ⟨some adr, true, false⟩ }

/-- `free(m_buffers[j].pData); m_buffers[j].pData = nullptr;` of the failure
cleanup (note: `bOwned` is left as it was, as in the source). -/
def freeSlotPtr (st : GfxMB) (j : Nat) : GfxMB :=
  let sl := st.buffers j
  match sl.pData with
  | some adr =>
    { st with live := fun a => if a = adr then false else st.live a,
              buffers := setSlot st.buffers j ⟨none, sl.bOwned, sl.bReady⟩ }
  | none => { st with buffers := setSlot st.buffers j ⟨none, sl.bOwned, sl.bReady⟩ }

/-- `for (j = 0; j < i; j++) ...` cleanup loop. -/
def cleanupLoop (st : GfxMB) (j : Nat) : Nat → GfxMB
  | 0 => st
  | n+1 => cleanupLoop (freeSlotPtr st j) (j + 1) n

/-- The failure branch of the allocation loop: store the null `malloc`
result into slot `i`, free the buffers allocated earlier in this call,
revert to one buffer whose slot 0 takes the CURRENT value of `m_pBuffer`
(the code comment says "Revert to original screen buffer"), non-owned, and
disable multi-buffering. -/
def failCleanup (st : GfxMB) (i : Nat) : GfxMB :=
  let bufs1 := setSlot st.buffers i ⟨none, (st.buffers i).bOwned, (st.buffers i).bReady⟩
  let st1 := { st with buffers := bufs1 }
  let st2 := cleanupLoop st1 0 i
  let bufs2 := setSlot st2.buffers 0 ⟨st2.pBuffer, false, (st2.buffers 0).bReady⟩
  { st2 with bufferCount := 1, buffers := bufs2, enabled := false }

/-- The allocation loop of `enableMultiBuffer` (`for (i = 0; i <
m_bufferCount; i++)`, trip count = the new `m_bufferCount`).  The success of
the `i`-th `malloc` is `oracle.getD i true`.  After a fully successful loop:
draw and display index 0, multi-buffering on, `m_pBuffer` at slot 0. -/
def allocLoop (oracle : List Bool) : Nat → Nat → GfxMB → GfxMB × Bool
  | 0, _, st =>
    ({ st with drawIdx := 0, dispIdx := 0, enabled := true,
               pBuffer := (st.buffers 0).pData }, true)
  | n+1, i, st =>
    if oracle.getD i true then allocLoop oracle n (i + 1) (allocOne st i)
    else (failCleanup st i, false)

/-- `CircleGFX::enableMultiBuffer`: clamp the request (anything outside 1..3
becomes 2), free previously owned buffers, then allocate. -/
def enableMultiBuffer (st : GfxMB) (oracle : List Bool) (numBuffers : Nat) : GfxMB × Bool :=
  let n := if numBuffers < 1 ∨ 3 < numBuffers then 2 else numBuffers
  let st1 := freeOwnedLoop st 0 st.bufferCount
  let st2 := { st1 with bufferCount := n }
  allocLoop oracle n 0 st2

/-- `CircleGFX::swapBuffers(autoclear)`: no-op unless multi-buffering is on;
mark the draw buffer ready, display it, copy it to the hardware surface,
advance the draw index round-robin, optionally zero-fill the new draw
buffer, and repoint `m_pBuffer`. -/
def swapBuffers (st : GfxMB) (autoclear : Bool) : GfxMB :=
  if st.enabled = false then st
  else
    let bufs1 := setSlot st.buffers st.drawIdx
      ⟨(st.buffers st.drawIdx).pData, (st.buffers st.drawIdx).bOwned, true⟩
    let st1 := { st with buffers := bufs1 }
    let st2 := { st1 with dispIdx := st1.drawIdx }
    let st3 := copyToHwIfSome st2 (st2.buffers st2.dispIdx).pData
    let nd := (st3.drawIdx + 1) % st3.bufferCount
    let st4 := { st3 with drawIdx := nd }
    let st5 := if autoclear then fillIfSome st4 (st4.buffers nd).pData 0 else st4
    { st5 with pBuffer := (st5.buffers nd).pData }

/-- `CircleGFX::selectDrawBuffer`. -/
def selectDrawBuffer (st : GfxMB) (i : Nat) : GfxMB × Bool :=
  if st.enabled = false ∨ st.bufferCount ≤ i then (st, false)
  else ({ st with drawIdx := i, pBuffer := (st.buffers i).pData }, true)

/-- `CircleGFX::selectDisplayBuffer` (immediately copies to the hardware
surface). -/
def selectDisplayBuffer (st : GfxMB) (i : Nat) : GfxMB × Bool :=
  if st.enabled = false ∨ st.bufferCount ≤ i then (st, false)
  else
    let st1 := { st with dispIdx := i }
    (copyToHwIfSome st1 (st1.buffers i).pData, true)

/-- The clear-all loop of `clearBuffer(-1, color)`. -/
def clearAllLoop (st : GfxMB) (i : Nat) (color : Nat) : Nat → GfxMB
  | 0 => st
  | n+1 => clearAllLoop (fillIfSome st (st.buffers i).pData color) (i + 1) color n

/-- `CircleGFX::clearBuffer`: `-1` clears all buffers with `color`, `-2`
zero-fills the current draw buffer (ignoring `color`, as in the source),
`0 ≤ i < bufferCount` clears one buffer.  (For `i < -2` the source would
index `m_buffers` out of bounds; such calls are modelled as no effect.) -/
def clearBuffer (st : GfxMB) (i : Int) (color : Nat) : GfxMB :=
  if i = -1 then clearAllLoop st 0 color st.bufferCount
  else if i = -2 then fillIfSome st (st.buffers st.drawIdx).pData 0
  else if 0 ≤ i ∧ i < (st.bufferCount : Int) then
    fillIfSome st (st.buffers i.toNat).pData color
  else st

/-- `CircleGFX::attachExternalBuffer`: refuse index ≥ 3 or a null pointer;
free a previously owned buffer at the slot, attach non-owned, grow
`m_bufferCount` to cover the slot. -/
def attachExternalBuffer (st : GfxMB) (i : Nat) (p : Option Nat) : GfxMB × Bool :=
  if 3 ≤ i ∨ p = none then (st, false)
  else
    let sl := st.buffers i
    let st1 :=
      match sl.pData with
      | some adr =>
        if sl.bOwned then { st with live := fun a => if a = adr then false else st.live a }
        else st
      | none => st
    let st2 := { st1 with buffers := setSlot st1.buffers i ⟨p, false, false⟩ }
    if st2.bufferCount ≤ i then ({ st2 with bufferCount := i + 1 }, true) else (st2, true)

/-- `CircleGFX::detachExternalBuffer`: only non-owned slots can be detached. -/
def detachExternalBuffer (st : GfxMB) (i : Nat) : GfxMB × Bool :=
  if st.bufferCount ≤ i then (st, false)
  else
    let sl := st.buffers i
    if sl.bOwned = false then
      ({ st with buffers := setSlot st.buffers i ⟨none, sl.bOwned, false⟩ }, true)
    else (st, false)

/-- One buffer-manager operation (the `oracle` of `enable` scripts the
outcome of each `malloc` in that call; a missing entry means success). -/
inductive MBOp where
  | enable (oracle : List Bool) (n : Nat)
  | swap (autoclear : Bool)
  | selDraw (i : Nat)
  | selDisp (i : Nat)
  | clear (i : Int) (color : Nat)
  | attach (i : Nat) (p : Option Nat)
  | detach (i : Nat)

/-- Apply one operation (results of the boolean-returning calls are
discarded, as a caller ignoring them would). -/
def applyOp (st : GfxMB) : MBOp → GfxMB
  | .enable o n => (enableMultiBuffer st o n).1
  | .swap a => swapBuffers st a
  | .selDraw i => (selectDrawBuffer st i).1
  | .selDisp i => (selectDisplayBuffer st i).1
  | .clear i color => clearBuffer st i color
  | .attach i p => (attachExternalBuffer st i p).1
  | .detach i => (detachExternalBuffer st i).1

/-- Apply a finite sequence of operations. -/
def applyOps (st : GfxMB) (ops : List MBOp) : GfxMB := ops.foldl applyOp st

/-- The index invariant of the claim: both indices below the buffer count
(and the count itself in 1..3). -/
def MBInv (st : GfxMB) : Prop :=
  1 ≤ st.bufferCount ∧ st.bufferCount ≤ 3 ∧
  st.drawIdx < st.bufferCount ∧ st.dispIdx < st.bufferCount

/-- An operation whose `malloc`s all succeed: for `enable`, the oracle
contains no scripted failure. -/
def opOk : MBOp → Prop
  | .enable oracle _ => oracle.all (fun x => x) = true
  | _ => True

/-- C2 / C5 evaluation scenario: a 4x3 screen. -/
def mbState0 : GfxMB := initMB 4 3 (fun _ => 2)

/-- After a successful `enableMultiBuffer(2)` (buffers at addresses 1, 2). -/
def mbState1 : GfxMB := (enableMultiBuffer mbState0 [] 2).1

/-- A second `enableMultiBuffer(2)` whose first `malloc` fails. -/
def mbState2 : GfxMB × Bool := enableMultiBuffer mbState1 [false] 2

/-- C2: evaluation of the code at the failing input.  Call
`enableMultiBuffer(2)` successfully (it allocates addresses 1 and 2 and sets
`m_pBuffer` to address 1), then call `enableMultiBuffer(2)` again with the
first `malloc` failing.  The second call first frees both owned buffers
(address 1 is no longer live) — but leaves `m_pBuffer` pointing at freed
address 1 — and its failure path then stores that stale `m_pBuffer` into
slot 0.  On return: single non-owned buffer, multi-buffering off, `false`
returned — but slot 0 and `m_pBuffer` refer to the freed block at address
1, NOT to the hardware surface (address 0), contradicting the claim (and
the code's own comment "Revert to original screen buffer"). -/
theorem C2_thm :
    (enableMultiBuffer mbState0 [] 2).2 = true ∧
    mbState1.pBuffer = some 1 ∧
    mbState1.live 1 = true ∧
    mbState2.2 = false ∧
    mbState2.1.bufferCount = 1 ∧
    mbState2.1.enabled = false ∧
    (mbState2.1.buffers 0).bOwned = false ∧
    (mbState2.1.buffers 0).pData = some 1 ∧
    mbState2.1.live 1 = false ∧
    (mbState2.1.buffers 0).pData ≠ some 0 ∧
    mbState2.1.pBuffer ≠ some 0 := by
  refine ⟨rfl, rfl, rfl, rfl, rfl, rfl, rfl, rfl, rfl, by decide, by decide⟩

@[simp] theorem setSlot_same (f : Nat → FBSlot) (i : Nat) (sl : FBSlot) :
    setSlot f i sl i = sl := by
  unfold setSlot
  rw [if_pos rfl]

theorem setSlot_other (f : Nat → FBSlot) (i : Nat) (sl : FBSlot) (j : Nat) (h : j ≠ i) :
    setSlot f i sl j = f j := by
  unfold setSlot
  rw [if_neg h]

theorem setSlot_ready_pData (f : Nat → FBSlot) (i j : Nat) :
    (setSlot f i ⟨(f i).pData, (f i).bOwned, true⟩ j).pData = (f j).pData := by
  unfold setSlot
  split_ifs with h
  · subst h; rfl
  · rfl

/-- C8, confirmed.  With multi-buffering enabled (and the buffer pointers of
the two involved slots valid heap blocks, the next one distinct from the
hardware surface, as every reachable multi-buffered state has), a
`swapBuffers(autoclear)` call: makes the display index the entry draw index,
advances the draw index to `(draw + 1) % bufferCount` (so repeated calls
round-robin through exactly `bufferCount` values), copies the displayed
buffer's full `width*height` 16-bit pixels to the hardware surface
value-for-value, zero-fills the new draw buffer exactly when `autoclear` is
set (when it is clear, no memory besides the hardware surface changes), and
repoints `m_pBuffer` at the new draw buffer. -/
theorem GfxMB_mem_mk (w h : Nat) (bufs : Nat → FBSlot) (cnt d di : Nat) (en : Bool)
    (pb : Option Nat) (m : Nat → Nat → Nat) (lv : Nat → Bool) (na : Nat) :
    (GfxMB.mk w h bufs cnt d di en pb m lv na).mem = m := rfl

theorem GfxMB_W_mk (w h : Nat) (bufs : Nat → FBSlot) (cnt d di : Nat) (en : Bool)
    (pb : Option Nat) (m : Nat → Nat → Nat) (lv : Nat → Bool) (na : Nat) :
    (GfxMB.mk w h bufs cnt d di en pb m lv na).W = w := rfl

theorem GfxMB_H_mk (w h : Nat) (bufs : Nat → FBSlot) (cnt d di : Nat) (en : Bool)
    (pb : Option Nat) (m : Nat → Nat → Nat) (lv : Nat → Bool) (na : Nat) :
    (GfxMB.mk w h bufs cnt d di en pb m lv na).H = h := rfl

@[simp] theorem GfxMB_count_mk (w h : Nat) (bufs : Nat → FBSlot) (cnt d di : Nat) (en : Bool)
    (pb : Option Nat) (m : Nat → Nat → Nat) (lv : Nat → Bool) (na : Nat) :
    (GfxMB.mk w h bufs cnt d di en pb m lv na).bufferCount = cnt := rfl

@[simp] theorem GfxMB_draw_mk (w h : Nat) (bufs : Nat → FBSlot) (cnt d di : Nat) (en : Bool)
    (pb : Option Nat) (m : Nat → Nat → Nat) (lv : Nat → Bool) (na : Nat) :
    (GfxMB.mk w h bufs cnt d di en pb m lv na).drawIdx = d := rfl

@[simp] theorem GfxMB_disp_mk (w h : Nat) (bufs : Nat → FBSlot) (cnt d di : Nat) (en : Bool)
    (pb : Option Nat) (m : Nat → Nat → Nat) (lv : Nat → Bool) (na : Nat) :
    (GfxMB.mk w h bufs cnt d di en pb m lv na).dispIdx = di := rfl

@[simp] theorem GfxMB_enabled_mk (w h : Nat) (bufs : Nat → FBSlot) (cnt d di : Nat) (en : Bool)
    (pb : Option Nat) (m : Nat → Nat → Nat) (lv : Nat → Bool) (na : Nat) :
    (GfxMB.mk w h bufs cnt d di en pb m lv na).enabled = en := rfl

@[simp] theorem GfxMB_buffers_mk (w h : Nat) (bufs : Nat → FBSlot) (cnt d di : Nat) (en : Bool)
    (pb : Option Nat) (m : Nat → Nat → Nat) (lv : Nat → Bool) (na : Nat) :
    (GfxMB.mk w h bufs cnt d di en pb m lv na).buffers = bufs := rfl

theorem C8_thm (st : GfxMB) (autoclear : Bool) (a bnext : Nat)
    (hen : st.enabled = true)
    (hc : 0 < st.bufferCount)
    (hsrc : (st.buffers st.drawIdx).pData = some a)
    (hnxt : (st.buffers ((st.drawIdx + 1) % st.bufferCount)).pData = some bnext)
    (hbne : bnext ≠ 0) :
    (swapBuffers st autoclear).dispIdx = st.drawIdx ∧
    (swapBuffers st autoclear).drawIdx = (st.drawIdx + 1) % st.bufferCount ∧
    (swapBuffers st autoclear).bufferCount = st.bufferCount ∧
    (swapBuffers st autoclear).enabled = true ∧
    ((swapBuffers st autoclear).buffers st.drawIdx).bReady = true ∧
    (swapBuffers st autoclear).pBuffer = some bnext ∧
    (∀ off, off < pixCount st → (swapBuffers st autoclear).mem 0 off = st.mem a off) ∧
    (autoclear = true → ∀ off, off < pixCount st →
      (swapBuffers st autoclear).mem bnext off = 0) ∧
    (autoclear = false → ∀ adr, adr ≠ 0 → ∀ off,
      (swapBuffers st autoclear).mem adr off = st.mem adr off) := by
  have hfill : (setSlot st.buffers st.drawIdx
      ⟨some a, (st.buffers st.drawIdx).bOwned, true⟩
      ((st.drawIdx + 1) % st.bufferCount)).pData = some bnext := by
    by_cases hnd : (st.drawIdx + 1) % st.bufferCount = st.drawIdx
    · rw [hnd, setSlot_same]
      rw [hnd, hsrc] at hnxt
      simpa using hnxt
    · rw [setSlot_other _ _ _ _ hnd]
      exact hnxt
  unfold swapBuffers
  rw [if_neg (by simp [hen])]
  simp only [setSlot_ready_pData]
  simp only [hsrc]
  simp only [copyToHwIfSome, memCopyToHw]
  simp only [hfill]
  simp only [fillIfSome, memFill]
  refine ⟨?_, ?_, ?_, ?_, ?_, ?_, ?_, ?_, ?_⟩
  · split_ifs <;> simp [hen, setSlot_same, hfill]
  · split_ifs <;> simp [hen, setSlot_same, hfill]
  · split_ifs <;> simp [hen, setSlot_same, hfill]
  · split_ifs <;> simp [hen, setSlot_same, hfill]
  · split_ifs <;> simp [hen, setSlot_same, hfill]
  · split_ifs <;> simp [hen, setSlot_same, hfill]
  · intro off hoff
    simp only [pixCount] at hoff
    split_ifs <;> simp only [pixCount, GfxMB_mem_mk, GfxMB_W_mk, GfxMB_H_mk] <;>
      split_ifs <;>
      first
        | rfl
        | omega
        | (simp only [pixCount, GfxMB_mem_mk, GfxMB_W_mk, GfxMB_H_mk]
           first
             | rfl
             | omega
             | (split_ifs <;> first | rfl | omega))
  · intro hauto off hoff
    simp only [pixCount] at hoff
    simp only [hauto]
    split_ifs <;> simp only [pixCount, GfxMB_mem_mk, GfxMB_W_mk, GfxMB_H_mk] <;>
      first
        | rfl
        | omega
        | (split_ifs <;>
           first
             | rfl
             | omega
             | (simp only [pixCount, GfxMB_mem_mk, GfxMB_W_mk, GfxMB_H_mk]
                first
                  | rfl
                  | omega
                  | (split_ifs <;> first | rfl | omega)))
  · intro hauto adr hadr off
    simp only [hauto, Bool.false_eq_true, if_false]
    split_ifs <;> simp only [pixCount, GfxMB_mem_mk, GfxMB_W_mk, GfxMB_H_mk] <;>
      first
        | rfl
        | omega
        | (split_ifs <;>
           first
             | rfl
             | omega
             | (simp only [pixCount, GfxMB_mem_mk, GfxMB_W_mk, GfxMB_H_mk]
                first
                  | rfl
                  | omega
                  | (split_ifs <;> first | rfl | omega)))

/-- C8, witness: a concrete swap on the double-buffered 4x3 state.  The
display index becomes the old draw index 0, the draw index advances to 1,
and the hardware surface now holds the displayed buffer's first pixel. -/
theorem C8_witness :
    (swapBuffers mbState1 true).dispIdx = 0 ∧
    (swapBuffers mbState1 true).drawIdx = 1 ∧
    (swapBuffers mbState1 true).mem 0 0 = mbState1.mem 1 0 := by
  have h := C8_thm mbState1 true 1 2 rfl (by decide) rfl rfl (by decide)
  refine ⟨?_, ?_, ?_⟩
  · rw [h.1]; decide
  · rw [h.2.1]; decide
  · exact h.2.2.2.2.2.2.1 0 (by decide)

theorem getD_true_of_all (o : List Bool) (h : o.all (fun x => x) = true) (i : Nat) :
    o.getD i true = true := by
  rcases ho : o[i]? with _ | b
  · simp [List.getD, ho]
  · have hb : b ∈ o := by
      have hgt := List.getElem?_eq_some.mp ho
      rcases hgt with ⟨hlt, rfl⟩
      exact List.getElem_mem hlt
    have := List.all_eq_true.mp h b hb
    simp [List.getD, ho]
    simpa using this

@[simp] theorem copyToHwIfSome_bufferCount (st : GfxMB) (o : Option Nat) :
    (copyToHwIfSome st o).bufferCount = st.bufferCount := by cases o <;> rfl

@[simp] theorem copyToHwIfSome_drawIdx (st : GfxMB) (o : Option Nat) :
    (copyToHwIfSome st o).drawIdx = st.drawIdx := by cases o <;> rfl

@[simp] theorem copyToHwIfSome_dispIdx (st : GfxMB) (o : Option Nat) :
    (copyToHwIfSome st o).dispIdx = st.dispIdx := by cases o <;> rfl

@[simp] theorem copyToHwIfSome_buffers (st : GfxMB) (o : Option Nat) :
    (copyToHwIfSome st o).buffers = st.buffers := by cases o <;> rfl

@[simp] theorem copyToHwIfSome_enabled (st : GfxMB) (o : Option Nat) :
    (copyToHwIfSome st o).enabled = st.enabled := by cases o <;> rfl

@[simp] theorem fillIfSome_bufferCount (st : GfxMB) (o : Option Nat) (v : Nat) :
    (fillIfSome st o v).bufferCount = st.bufferCount := by cases o <;> rfl

@[simp] theorem fillIfSome_drawIdx (st : GfxMB) (o : Option Nat) (v : Nat) :
    (fillIfSome st o v).drawIdx = st.drawIdx := by cases o <;> rfl

@[simp] theorem fillIfSome_dispIdx (st : GfxMB) (o : Option Nat) (v : Nat) :
    (fillIfSome st o v).dispIdx = st.dispIdx := by cases o <;> rfl

@[simp] theorem fillIfSome_buffers (st : GfxMB) (o : Option Nat) (v : Nat) :
    (fillIfSome st o v).buffers = st.buffers := by cases o <;> rfl

@[simp] theorem fillIfSome_enabled (st : GfxMB) (o : Option Nat) (v : Nat) :
    (fillIfSome st o v).enabled = st.enabled := by cases o <;> rfl

theorem allocLoop_allTrue (oracle : List Bool) (hall : oracle.all (fun x => x) = true) :
    ∀ (fuel i : Nat) (st : GfxMB),
      (allocLoop oracle fuel i st).1.drawIdx = 0 ∧
      (allocLoop oracle fuel i st).1.dispIdx = 0 ∧
      (allocLoop oracle fuel i st).1.bufferCount = st.bufferCount ∧
      (allocLoop oracle fuel i st).2 = true := by
  intro fuel
  induction fuel with
  | zero => intro i st; exact ⟨rfl, rfl, rfl, rfl⟩
  | succ n ih =>
    intro i st
    have hg := getD_true_of_all oracle hall i
    simp only [allocLoop, hg, if_true]
    have h := ih (i + 1) (allocOne st i)
    refine ⟨h.1, h.2.1, ?_, h.2.2.2⟩
    rw [h.2.2.1]
    rfl

theorem MBInv_enable (st : GfxMB) (oracle : List Bool) (n : Nat)
    (h : oracle.all (fun x => x) = true) :
    MBInv (enableMultiBuffer st oracle n).1 := by
  unfold enableMultiBuffer
  simp only []
  obtain ⟨h1, h2, h3, h4⟩ := allocLoop_allTrue oracle h
    (if n < 1 ∨ 3 < n then 2 else n) 0
    { freeOwnedLoop st 0 st.bufferCount with bufferCount := if n < 1 ∨ 3 < n then 2 else n }
  refine ⟨?_, ?_, ?_, ?_⟩ <;> rw [h3] <;> try rw [h1]
  all_goals try rw [h2]
  all_goals split_ifs <;> simp <;> omega

theorem MBInv_swap (st : GfxMB) (auto : Bool) (h : MBInv st) :
    MBInv (swapBuffers st auto) := by
  obtain ⟨h1, h2, h3, h4⟩ := h
  unfold swapBuffers
  by_cases he : st.enabled = false
  · rw [if_pos he]; exact ⟨h1, h2, h3, h4⟩
  · rw [if_neg he]
    simp only []
    by_cases hau : auto = true
    · rw [if_pos hau]
      refine ⟨?_, ?_, ?_, ?_⟩ <;> simp <;>
        first | omega | exact Nat.mod_lt _ (by omega)
    · rw [if_neg hau]
      refine ⟨?_, ?_, ?_, ?_⟩ <;> simp <;>
        first | omega | exact Nat.mod_lt _ (by omega)

theorem MBInv_selDraw (st : GfxMB) (i : Nat) (h : MBInv st) :
    MBInv (selectDrawBuffer st i).1 := by
  obtain ⟨h1, h2, h3, h4⟩ := h
  unfold selectDrawBuffer
  split_ifs with hc
  · exact ⟨h1, h2, h3, h4⟩
  · exact ⟨h1, h2, by simp; omega, h4⟩

theorem MBInv_selDisp (st : GfxMB) (i : Nat) (h : MBInv st) :
    MBInv (selectDisplayBuffer st i).1 := by
  obtain ⟨h1, h2, h3, h4⟩ := h
  unfold selectDisplayBuffer
  split_ifs with hc
  · exact ⟨h1, h2, h3, h4⟩
  · refine ⟨?_, ?_, ?_, ?_⟩ <;> simp <;> omega

theorem clearAllLoop_proj : ∀ (n : Nat) (st : GfxMB) (i color : Nat),
    (clearAllLoop st i color n).bufferCount = st.bufferCount ∧
    (clearAllLoop st i color n).drawIdx = st.drawIdx ∧
    (clearAllLoop st i color n).dispIdx = st.dispIdx := by
  intro n
  induction n with
  | zero => intro st i color; exact ⟨rfl, rfl, rfl⟩
  | succ m ih =>
    intro st i color
    have h := ih (fillIfSome st (st.buffers i).pData color) (i + 1) color
    simp only [clearAllLoop]
    refine ⟨?_, ?_, ?_⟩
    · rw [h.1]; simp
    · rw [h.2.1]; simp
    · rw [h.2.2]; simp

theorem MBInv_clear (st : GfxMB) (i : Int) (color : Nat) (h : MBInv st) :
    MBInv (clearBuffer st i color) := by
  obtain ⟨h1, h2, h3, h4⟩ := h
  unfold clearBuffer
  split_ifs with ha hb hc
  · obtain ⟨g1, g2, g3⟩ := clearAllLoop_proj st.bufferCount st 0 color
    exact ⟨by omega, by omega, by rw [g2, g1]; omega, by rw [g3, g1]; omega⟩
  · refine ⟨?_, ?_, ?_, ?_⟩ <;> simp <;> omega
  · refine ⟨?_, ?_, ?_, ?_⟩ <;> simp <;> omega
  · exact ⟨h1, h2, h3, h4⟩

theorem MBInv_attach (st : GfxMB) (i : Nat) (p : Option Nat) (h : MBInv st) :
    MBInv (attachExternalBuffer st i p).1 := by
  obtain ⟨h1, h2, h3, h4⟩ := h
  unfold attachExternalBuffer
  split_ifs with hc
  · exact ⟨h1, h2, h3, h4⟩
  · simp only []
    rcases hp : (st.buffers i).pData with _ | adr <;> simp only [hp] <;>
      split_ifs <;> refine ⟨?_, ?_, ?_, ?_⟩ <;> simp_all <;> omega

theorem MBInv_detach (st : GfxMB) (i : Nat) (h : MBInv st) :
    MBInv (detachExternalBuffer st i).1 := by
  obtain ⟨h1, h2, h3, h4⟩ := h
  unfold detachExternalBuffer
  simp only []
  split_ifs <;> refine ⟨?_, ?_, ?_, ?_⟩ <;> simp <;> omega

theorem MBInv_applyOps : ∀ (ops : List MBOp) (st : GfxMB),
    MBInv st → (∀ op ∈ ops, opOk op) → MBInv (applyOps st ops) := by
  intro ops
  induction ops with
  | nil => intro st h _; exact h
  | cons op ops ih =>
    intro st h hops
    rw [applyOps, List.foldl_cons]
    have hop := hops op (List.mem_cons_self op ops)
    have htail : ∀ o ∈ ops, opOk o := fun o ho => hops o (List.mem_cons_of_mem op ho)
    refine ih (applyOp st op) ?_ htail
    cases op with
    | enable oracle n => exact MBInv_enable st oracle n hop
    | swap a => exact MBInv_swap st a h
    | selDraw i => exact MBInv_selDraw st i h
    | selDisp i => exact MBInv_selDisp st i h
    | clear i color => exact MBInv_clear st i color h
    | attach i p => exact MBInv_attach st i p h
    | detach i => exact MBInv_detach st i h

/-- C5, amended.  Starting from the initialized single-buffer state, after
every finite sequence of buffer-manager operations in which every
`enableMultiBuffer` call has all of its allocations succeed, the draw and
display indices remain strictly below the buffer count (which stays in
1..3).  The restriction is necessary: a failing `enableMultiBuffer` resets
the buffer count to 1 but leaves the indices untouched, so it can break the
invariant (see the counterexample). -/
theorem C5_amended (w h : Nat) (hw : Nat → Nat) (ops : List MBOp)
    (hops : ∀ op ∈ ops, opOk op) :
    MBInv (applyOps (initMB w h hw) ops) := by
  refine MBInv_applyOps ops (initMB w h hw) ?_ hops
  exact ⟨by simp [initMB], by simp [initMB], by simp [initMB], by simp [initMB]⟩

/-- C5, counterexample to the claim as stated: enable double buffering,
select draw buffer 1, then call `enableMultiBuffer(2)` again with its first
allocation failing.  The failure path sets the buffer count to 1 without
resetting the indices, leaving the draw index 1, NOT strictly less than the
buffer count. -/
theorem C5_counterexample :
    (applyOps (initMB 4 3 (fun _ => 0))
      [.enable [] 2, .selDraw 1, .enable [false] 2]).drawIdx = 1 ∧
    (applyOps (initMB 4 3 (fun _ => 0))
      [.enable [] 2, .selDraw 1, .enable [false] 2]).bufferCount = 1 ∧
    ¬((applyOps (initMB 4 3 (fun _ => 0))
        [.enable [] 2, .selDraw 1, .enable [false] 2]).drawIdx <
      (applyOps (initMB 4 3 (fun _ => 0))
        [.enable [] 2, .selDraw 1, .enable [false] 2]).bufferCount) := by
  refine ⟨rfl, rfl, by decide⟩

/-- C5, witness: a concrete all-allocations-succeed sequence (triple
buffering, a swap, a manual draw-buffer selection) keeps the invariant. -/
theorem C5_witness :
    MBInv (applyOps (initMB 4 3 (fun _ => 0))
      [.enable [] 3, .swap true, .selDraw 1, .clear (-1) 5, .detach 2]) := by
  have h := C5_amended 4 3 (fun _ => 0)
    [.enable [] 3, .swap true, .selDraw 1, .clear (-1) 5, .detach 2] ?_
  · exact h
  · intro op hop
    simp only [List.mem_cons, List.not_mem_nil, or_false] at hop
    rcases hop with rfl | rfl | rfl | rfl | rfl <;> first | trivial | exact rfl

-- ══════════════════════════════════════════════════════════════════════════
-- writeLine (Bresenham)
-- ══════════════════════════════════════════════════════════════════════════

/-- The loop-invariant locals of `CircleGFX::writeLine`: target point,
`dx = ABS(x1-x0)`, `dy = ABS(y1-y0)` (as stored into `int16_t`), and the
steps `sx`, `sy`. -/
structure BLine where
  x1 : Int
  y1 : Int
  dx : Int
  dy : Int
  sx : Int
  sy : Int

/-- The mutable loop state of `writeLine`: current position and error term. -/
structure BSt where
  x : Int
  y : Int
  err : Int

/-- One iteration of the `writeLine` loop after the plot and the exit test,
with every `int16_t` store truncated:
`e2 = 2*err; if (e2 > -dy) { err -= dy; x += sx; }
if (e2 < dx) { err += dx; y += sy; }`. -/
def lineStepW (c : BLine) (s : BSt) : BSt :=
  let e2 := wrap16 (2 * s.err)
  let err1 := if e2 > -c.dy then wrap16 (s.err - c.dy) else s.err
  let xn := if e2 > -c.dy then wrap16 (s.x + c.sx) else s.x
  let err2 := if e2 < c.dx then wrap16 (err1 + c.dx) else err1
  let yn := if e2 < c.dx then wrap16 (s.y + c.sy) else s.y
  ⟨xn, yn, err2⟩

/-- The same iteration over unbounded integers (used to reason about the
runs on which no `int16_t` store overflows). -/
def lineStep (c : BLine) (s : BSt) : BSt :=
  let e2 := 2 * s.err
  let err1 := if e2 > -c.dy then s.err - c.dy else s.err
  let xn := if e2 > -c.dy then s.x + c.sx else s.x
  let err2 := if e2 < c.dx then err1 + c.dx else err1
  let yn := if e2 < c.dx then s.y + c.sy else s.y
  ⟨xn, yn, err2⟩

/-- The exit test `x == x1 && y == y1` (checked after each plot). -/
def lineDone (c : BLine) (s : BSt) : Bool := s.x == c.x1 && s.y == c.y1

/-- `n` wrapped loop iterations. -/
def lineIterW (c : BLine) (s : BSt) : Nat → BSt
  | 0 => s
  | n+1 => lineIterW c (lineStepW c s) n

/-- `n` ideal loop iterations. -/
def lineIter (c : BLine) (s : BSt) : Nat → BSt
  | 0 => s
  | n+1 => lineIter c (lineStep c s) n

/-- The initial configuration and state of `writeLine(x0, y0, x1, y1)`:
`dx`, `dy` are the absolute deltas as truncated into their `int16_t`
variables, `err = dx - dy`. -/
def mkLine (x0 y0 x1 y1 : Int) : BLine × BSt :=
  let dx := wrap16 |x1 - x0|
  let dy := wrap16 |y1 - y0|
  let sx : Int := if x0 < x1 then 1 else -1
  let sy : Int := if y0 < y1 then 1 else -1
  let err := wrap16 (dx - dy)
  (⟨x1, y1, dx, dy, sx, sy⟩, ⟨x0, y0, err⟩)

/-- Fuel-bounded run of the `while (true)` loop: collect the positions
passed to `writePixel` (each in-bounds one becomes a pixel write; clipping
happens inside `writePixel`) and whether the loop reached its exit within
the given fuel. -/
def lineRun (c : BLine) : BSt → Nat → List (Int × Int) × Bool
  | _, 0 => ([], false)
  | s, fuel+1 =>
    if lineDone c s then ([(s.x, s.y)], true)
    else
      let r := lineRun c (lineStepW c s) fuel
      ((s.x, s.y) :: r.1, r.2)

/-- The positions plotted by `writeLine(x0, y0, x1, y1)` within `fuel`
iterations, plus the termination flag. -/
def writeLinePlots (x0 y0 x1 y1 : Int) (fuel : Nat) : List (Int × Int) × Bool :=
  lineRun (mkLine x0 y0 x1 y1).1 (mkLine x0 y0 x1 y1).2 fuel

/-- `writeLine(x0, y0, x1, y1)` terminates: its loop reaches the exit test
successfully after finitely many iterations. -/
def writeLineTerm (x0 y0 x1 y1 : Int) : Prop :=
  ∃ fuel, (writeLinePlots x0 y0 x1 y1 fuel).2 = true

/-- The error/step sequence of the ideal loop in the x-major case
(`dy ≤ dx`), assuming the x-condition fires every iteration: component 1 is
the error term, component 2 the number of y-steps taken so far. -/
def errv (dx dy : Int) : Nat → Int × Int
  | 0 => (dx - dy, 0)
  | n+1 =>
    if 2 * (errv dx dy n).1 < dx then
      ((errv dx dy n).1 - dy + dx, (errv dx dy n).2 + 1)
    else
      ((errv dx dy n).1 - dy, (errv dx dy n).2)

/-- Swap the roles of x and y in a configuration. -/
def mirrorLine (c : BLine) : BLine := ⟨c.y1, c.x1, c.dy, c.dx, c.sy, c.sx⟩

/-- Swap the roles of x and y in a loop state (the error term negates). -/
def mirrorSt (s : BSt) : BSt := ⟨s.y, s.x, -s.err⟩

/-- The error term of the x-major error sequence stays strictly between
`-dy/2` and `(3dx - 2dy)/2`. -/
theorem errv_bounds (dx dy : Int) (hdx : 1 ≤ dx) (hdy : 0 ≤ dy) (hle : dy ≤ dx) :
    ∀ n : Nat, -dy < 2 * (errv dx dy n).1 ∧ 2 * (errv dx dy n).1 < 3 * dx - 2 * dy := by
  intro n
  induction n with
  | zero =>
    constructor <;> simp only [errv] <;> omega
  | succ m ih =>
    by_cases hc : 2 * (errv dx dy m).1 < dx
    · rw [errv, if_pos hc]
      constructor <;> simp only [] <;> omega
    · rw [errv, if_neg hc]
      constructor <;> simp only [] <;> omega

/-- Closed form of the error term: `err_n = dx·(v_n + 1) - dy·(n + 1)`. -/
theorem errv_closed (dx dy : Int) : ∀ n : Nat,
    (errv dx dy n).1 = dx * ((errv dx dy n).2 + 1) - dy * ((n : Int) + 1) := by
  intro n
  induction n with
  | zero => simp only [errv]; ring
  | succ m ih =>
    by_cases hc : 2 * (errv dx dy m).1 < dx
    · rw [errv, if_pos hc]
      simp only []
      rw [ih]
      push_cast
      ring
    · rw [errv, if_neg hc]
      simp only []
      rw [ih]
      push_cast
      ring

/-- The y-step counter is nonnegative. -/
theorem errv_v_nonneg (dx dy : Int) : ∀ n : Nat, 0 ≤ (errv dx dy n).2 := by
  intro n
  induction n with
  | zero => simp [errv]
  | succ m ih =>
    by_cases hc : 2 * (errv dx dy m).1 < dx
    · rw [errv, if_pos hc]; simp only []; omega
    · rw [errv, if_neg hc]; simp only []; omega

/-- The y-step counter grows by at most one per iteration. -/
theorem errv_v_step (dx dy : Int) (n : Nat) :
    (errv dx dy (n + 1)).2 = (errv dx dy n).2 ∨
    (errv dx dy (n + 1)).2 = (errv dx dy n).2 + 1 := by
  by_cases hc : 2 * (errv dx dy n).1 < dx
  · rw [errv, if_pos hc]; right; rfl
  · rw [errv, if_neg hc]; left; rfl

/-- Within the first `dx` iterations the y-step counter never exceeds `dy`. -/
theorem errv_v_le (dx dy : Int) (hdx : 1 ≤ dx) (hdy : 0 ≤ dy) (hle : dy ≤ dx) :
    ∀ n : Nat, (n : Int) ≤ dx → (errv dx dy n).2 ≤ dy := by
  intro n
  induction n with
  | zero => intro _; simp [errv]; exact hdy
  | succ m ih =>
    intro hn
    have hm : (m : Int) ≤ dx := by push_cast at hn ⊢; omega
    have hv := ih hm
    rcases lt_or_eq_of_le hv with hlt | heq
    · rcases errv_v_step dx dy m with h | h <;> rw [h] <;> omega
    · have hcl := errv_closed dx dy m
      have hnc : ¬ 2 * (errv dx dy m).1 < dx := by
        rw [hcl, heq]
        have hmul : dy * ((m : Int) + 1) ≤ dy * dx := by
          apply mul_le_mul_of_nonneg_left _ hdy
          push_cast at hn; omega
        nlinarith
      rw [errv, if_neg hnc]
      simp only []
      omega

/-- After exactly `dx` iterations the y-step counter equals `dy`. -/
theorem errv_v_final (dx dy : Int) (hdx : 1 ≤ dx) (hdy : 0 ≤ dy) (hle : dy ≤ dx) :
    (errv dx dy dx.toNat).2 = dy := by
  have hub := errv_v_le dx dy hdx hdy hle dx.toNat (by omega)
  have hb := (errv_bounds dx dy hdx hdy hle dx.toNat).1
  have hcl := errv_closed dx dy dx.toNat
  have hcast : ((dx.toNat : Nat) : Int) = dx := by omega
  rw [hcl, hcast] at hb
  nlinarith [errv_v_nonneg dx dy dx.toNat]

/-- The ideal iterate can also be unfolded at the far end. -/
theorem lineIter_succ_last (c : BLine) : ∀ (n : Nat) (s : BSt),
    lineIter c s (n + 1) = lineStep c (lineIter c s n) := by
  intro n
  induction n with
  | zero => intro s; rfl
  | succ m ih => intro s; rw [lineIter, ih, lineIter]

/-- The wrapped iterate can also be unfolded at the far end. -/
theorem lineIterW_succ_last (c : BLine) : ∀ (n : Nat) (s : BSt),
    lineIterW c s (n + 1) = lineStepW c (lineIterW c s n) := by
  intro n
  induction n with
  | zero => intro s; rfl
  | succ m ih => intro s; rw [lineIterW, ih, lineIterW]

/-- Closed form of the ideal loop in the x-major case: after `n ≤ dx`
iterations the position is `(x0 + n·sx, y0 + v_n·sy)` and the error term is
`err_n`, where `(err_n, v_n) = errv dx dy n`. -/
theorem lineIter_formula (x0 y0 : Int) (c : BLine)
    (hdx : 1 ≤ c.dx) (hdy : 0 ≤ c.dy) (hle : c.dy ≤ c.dx) :
    ∀ n : Nat, (n : Int) ≤ c.dx →
      lineIter c ⟨x0, y0, c.dx - c.dy⟩ n =
        ⟨x0 + (n : Int) * c.sx, y0 + (errv c.dx c.dy n).2 * c.sy,
          (errv c.dx c.dy n).1⟩ := by
  intro n
  induction n with
  | zero =>
    intro _
    simp [lineIter, errv]
  | succ m ih =>
    intro hn
    have hm : (m : Int) ≤ c.dx := by push_cast at hn ⊢; omega
    rw [lineIter_succ_last, ih hm]
    have hb := errv_bounds c.dx c.dy hdx hdy hle m
    have h1 : 2 * (errv c.dx c.dy m).1 > -c.dy := by omega
    by_cases hc : 2 * (errv c.dx c.dy m).1 < c.dx
    · show BSt.mk _ _ _ = _
      rw [errv, if_pos hc]
      simp only [lineStep, if_pos h1, if_pos hc]
      simp only [BSt.mk.injEq]
      refine ⟨?_, ?_, ?_⟩ <;> push_cast <;> ring
    · show BSt.mk _ _ _ = _
      rw [errv, if_neg hc]
      simp only [lineStep, if_pos h1, if_neg hc]
      simp only [BSt.mk.injEq]
      refine ⟨?_, ?_, ?_⟩ <;> push_cast <;> ring

/-- Mirroring commutes with the ideal step: swapping the axes (and negating
the error) before a step gives the mirrored result of the step. -/
theorem lineStep_mirror (c : BLine) (s : BSt) :
    lineStep (mirrorLine c) (mirrorSt s) = mirrorSt (lineStep c s) := by
  simp only [lineStep, mirrorLine, mirrorSt, BSt.mk.injEq]
  refine ⟨?_, ?_, ?_⟩ <;> split_ifs <;> omega

/-- Mirroring commutes with ideal iteration. -/
theorem lineIter_mirror (c : BLine) : ∀ (n : Nat) (s : BSt),
    lineIter (mirrorLine c) (mirrorSt s) n = mirrorSt (lineIter c s n) := by
  intro n
  induction n with
  | zero => intro s; rfl
  | succ m ih =>
    intro s
    rw [lineIter, lineStep_mirror, ih, lineIter]

/-- Closed form of the ideal loop in the y-major case, obtained by
mirroring the x-major formula: the roles of `dx`/`dy` and of the two
coordinates swap, and the error term negates. -/
theorem lineIter_formula2 (x0 y0 : Int) (c : BLine)
    (hdy : 1 ≤ c.dy) (hdx : 0 ≤ c.dx) (hle : c.dx ≤ c.dy) :
    ∀ n : Nat, (n : Int) ≤ c.dy →
      lineIter c ⟨x0, y0, c.dx - c.dy⟩ n =
        ⟨x0 + (errv c.dy c.dx n).2 * c.sx, y0 + (n : Int) * c.sy,
          -(errv c.dy c.dx n).1⟩ := by
  intro n hn
  have h0 : (⟨x0, y0, c.dx - c.dy⟩ : BSt) = mirrorSt ⟨y0, x0, c.dy - c.dx⟩ := by
    show _ = BSt.mk x0 y0 (-(c.dy - c.dx))
    rw [show c.dx - c.dy = -(c.dy - c.dx) by ring]
  rw [h0]
  have hmir := lineIter_mirror (mirrorLine c) n ⟨y0, x0, c.dy - c.dx⟩
  rw [show mirrorLine (mirrorLine c) = c from rfl] at hmir
  rw [hmir]
  have hform := lineIter_formula y0 x0 (mirrorLine c) hdy hdx hle n hn
  rw [show (mirrorLine c).dx = c.dy from rfl, show (mirrorLine c).dy = c.dx from rfl] at hform
  rw [hform]
  rfl

/-- When none of the `int16_t` stores of one iteration overflows, the
wrapped step agrees with the ideal step. -/
theorem lineStepW_eq_ideal (c : BLine) (s : BSt)
    (hdy : 0 ≤ c.dy ∧ c.dy ≤ 8191) (hdx : 0 ≤ c.dx ∧ c.dx ≤ 8191)
    (herr : -12287 ≤ s.err ∧ s.err ≤ 12287)
    (hx : 2 * s.err > -c.dy → -32768 ≤ s.x + c.sx ∧ s.x + c.sx ≤ 32767)
    (hy : 2 * s.err < c.dx → -32768 ≤ s.y + c.sy ∧ s.y + c.sy ≤ 32767) :
    lineStepW c s = lineStep c s := by
  have he2 : wrap16 (2 * s.err) = 2 * s.err :=
    wrap16_eq_self _ (by omega) (by omega)
  by_cases h1 : 2 * s.err > -c.dy <;> by_cases h2 : 2 * s.err < c.dx
  · have hxb := hx h1
    have hyb := hy h2
    have w1 : wrap16 (s.err - c.dy) = s.err - c.dy :=
      wrap16_eq_self _ (by omega) (by omega)
    have w2 : wrap16 (s.x + c.sx) = s.x + c.sx :=
      wrap16_eq_self _ (by omega) (by omega)
    have w3 : wrap16 (s.err - c.dy + c.dx) = s.err - c.dy + c.dx :=
      wrap16_eq_self _ (by omega) (by omega)
    have w4 : wrap16 (s.y + c.sy) = s.y + c.sy :=
      wrap16_eq_self _ (by omega) (by omega)
    simp [lineStepW, lineStep, he2, if_pos h1, if_pos h2, w1, w2, w3, w4]
  · have hxb := hx h1
    have w1 : wrap16 (s.err - c.dy) = s.err - c.dy :=
      wrap16_eq_self _ (by omega) (by omega)
    have w2 : wrap16 (s.x + c.sx) = s.x + c.sx :=
      wrap16_eq_self _ (by omega) (by omega)
    simp [lineStepW, lineStep, he2, if_pos h1, if_neg h2, w1, w2]
  · have hyb := hy h2
    have w4 : wrap16 (s.y + c.sy) = s.y + c.sy :=
      wrap16_eq_self _ (by omega) (by omega)
    have w5 : wrap16 (s.err + c.dx) = s.err + c.dx :=
      wrap16_eq_self _ (by omega) (by omega)
    simp [lineStepW, lineStep, he2, if_neg h1, if_pos h2, w4, w5]
  · simp [lineStepW, lineStep, he2, if_neg h1, if_neg h2]

/-- If every ideal iterate below `N` is wrap-safe, the wrapped and the
ideal iterates agree up to `N`. -/
theorem lineIterW_eq_of_safe (c : BLine) (s0 : BSt) (N : Nat)
    (hsafe : ∀ n : Nat, n < N →
      lineStepW c (lineIter c s0 n) = lineStep c (lineIter c s0 n)) :
    ∀ n : Nat, n ≤ N → lineIterW c s0 n = lineIter c s0 n := by
  intro n
  induction n with
  | zero => intro _; rfl
  | succ m ih =>
    intro hn
    rw [lineIterW_succ_last, lineIter_succ_last, ih (by omega),
        hsafe m (by omega)]

theorem BSt_x_mk (x y e : Int) : (BSt.mk x y e).x = x := rfl

theorem BSt_y_mk (x y e : Int) : (BSt.mk x y e).y = y := rfl

theorem BSt_err_mk (x y e : Int) : (BSt.mk x y e).err = e := rfl

/-- The exit test succeeds exactly at the target point. -/
theorem lineDone_iff (c : BLine) (s : BSt) :
    lineDone c s = true ↔ (s.x = c.x1 ∧ s.y = c.y1) := by
  simp [lineDone]

/-- If the exit test first succeeds at iterate `M`, any run with fuel
`≥ M + 1` terminates and plots exactly the positions of iterates `0..M`. -/
theorem lineRun_complete (c : BLine) : ∀ (M : Nat) (s : BSt),
    (∀ n : Nat, n < M → lineDone c (lineIterW c s n) = false) →
    lineDone c (lineIterW c s M) = true →
    ∀ fuel : Nat, M + 1 ≤ fuel →
      (lineRun c s fuel).2 = true ∧
      (lineRun c s fuel).1
        = (List.range (M + 1)).map
            (fun n => ((lineIterW c s n).x, (lineIterW c s n).y)) := by
  intro M
  induction M with
  | zero =>
    intro s _ hd fuel hf
    obtain ⟨f, rfl⟩ : ∃ f, fuel = f + 1 := ⟨fuel - 1, by omega⟩
    have hd' : lineDone c s = true := hd
    refine ⟨?_, ?_⟩ <;>
      simp [lineRun, hd', List.range_succ, lineIterW]
  | succ M ih =>
    intro s hnd hd fuel hf
    obtain ⟨f, rfl⟩ : ∃ f, fuel = f + 1 := ⟨fuel - 1, by omega⟩
    have hd0 : lineDone c s = false := hnd 0 (by omega)
    have hihnd : ∀ n : Nat, n < M →
        lineDone c (lineIterW c (lineStepW c s) n) = false := by
      intro n hn
      exact hnd (n + 1) (by omega)
    have hihd : lineDone c (lineIterW c (lineStepW c s) M) = true := hd
    have hr := ih (lineStepW c s) hihnd hihd f (by omega)
    refine ⟨?_, ?_⟩
    · simp only [lineRun, hd0, Bool.false_eq_true, if_false]
      exact hr.1
    · simp only [lineRun, hd0, Bool.false_eq_true, if_false]
      rw [hr.2]
      conv_rhs => rw [List.range_succ_eq_map, List.map_cons, List.map_map]
      rfl

/-- Abstract characterization of a terminating run: if the iterates follow
closed-form positions that first hit the target at step `M`, a run with
enough fuel terminates, plots `M + 1` positions, and both the start and the
target are among them. -/
theorem lineRun_char_of_pos (c : BLine) (s : BSt) (M : Nat)
    (px py : Nat → Int)
    (hpos : ∀ n : Nat, n ≤ M →
      (lineIterW c s n).x = px n ∧ (lineIterW c s n).y = py n)
    (hne : ∀ n : Nat, n < M → px n ≠ c.x1 ∨ py n ≠ c.y1)
    (hM : px M = c.x1 ∧ py M = c.y1) :
    ∀ fuel : Nat, M + 1 ≤ fuel →
      (lineRun c s fuel).2 = true ∧
      (lineRun c s fuel).1.length = M + 1 ∧
      (px 0, py 0) ∈ (lineRun c s fuel).1 ∧
      (c.x1, c.y1) ∈ (lineRun c s fuel).1 := by
  intro fuel hf
  have hnd : ∀ n : Nat, n < M → lineDone c (lineIterW c s n) = false := by
    intro n hn
    rw [Bool.eq_false_iff]
    intro hT
    rw [lineDone_iff] at hT
    obtain ⟨hx, hy⟩ := hpos n (le_of_lt hn)
    rcases hne n hn with h | h
    · exact h (by rw [← hx]; exact hT.1)
    · exact h (by rw [← hy]; exact hT.2)
  have hd : lineDone c (lineIterW c s M) = true := by
    rw [lineDone_iff]
    obtain ⟨hx, hy⟩ := hpos M le_rfl
    exact ⟨hx.trans hM.1, hy.trans hM.2⟩
  have hr := lineRun_complete c M s hnd hd fuel hf
  refine ⟨hr.1, ?_, ?_, ?_⟩
  · rw [hr.2, List.length_map, List.length_range]
  · rw [hr.2]
    apply List.mem_map.mpr
    refine ⟨0, List.mem_range.mpr (by omega), ?_⟩
    show ((lineIterW c s 0).x, (lineIterW c s 0).y) = (px 0, py 0)
    obtain ⟨hx, hy⟩ := hpos 0 (by omega)
    rw [hx, hy]
  · rw [hr.2]
    apply List.mem_map.mpr
    refine ⟨M, List.mem_range.mpr (by omega), ?_⟩
    show ((lineIterW c s M).x, (lineIterW c s M).y) = (c.x1, c.y1)
    obtain ⟨hx, hy⟩ := hpos M le_rfl
    rw [hx, hy, hM.1, hM.2]

/-- Full characterization of `writeLine` when no `int16_t` store can
overflow: with both endpoints in `int16_t` range and both absolute deltas
at most `8191`, a run with fuel at least `max |x1-x0| |y1-y0| + 1`
terminates, plots exactly `max |x1-x0| |y1-y0| + 1` positions, and both
endpoints are among the plotted positions. -/
theorem writeLine_run_char (x0 y0 x1 y1 : Int)
    (hx0 : -32768 ≤ x0 ∧ x0 ≤ 32767) (hy0 : -32768 ≤ y0 ∧ y0 ≤ 32767)
    (hx1 : -32768 ≤ x1 ∧ x1 ≤ 32767) (hy1 : -32768 ≤ y1 ∧ y1 ≤ 32767)
    (hdx : (x1 - x0).natAbs ≤ 8191) (hdy : (y1 - y0).natAbs ≤ 8191) :
    ∀ fuel : Nat, max (x1 - x0).natAbs (y1 - y0).natAbs + 1 ≤ fuel →
      (writeLinePlots x0 y0 x1 y1 fuel).2 = true ∧
      (writeLinePlots x0 y0 x1 y1 fuel).1.length
        = max (x1 - x0).natAbs (y1 - y0).natAbs + 1 ∧
      (x0, y0) ∈ (writeLinePlots x0 y0 x1 y1 fuel).1 ∧
      (x1, y1) ∈ (writeLinePlots x0 y0 x1 y1 fuel).1 := by
  intro fuel hf
  set Dx := (x1 - x0).natAbs with hDx
  set Dy := (y1 - y0).natAbs with hDy
  set sx : Int := if x0 < x1 then 1 else -1 with hsxd
  set sy : Int := if y0 < y1 then 1 else -1 with hsyd
  have hwdx : wrap16 |x1 - x0| = (Dx : Int) := by
    rw [Int.abs_eq_natAbs, ← hDx]
    exact wrap16_eq_self _ (by omega) (by omega)
  have hwdy : wrap16 |y1 - y0| = (Dy : Int) := by
    rw [Int.abs_eq_natAbs, ← hDy]
    exact wrap16_eq_self _ (by omega) (by omega)
  have hwerr : wrap16 ((Dx : Int) - (Dy : Int)) = (Dx : Int) - (Dy : Int) :=
    wrap16_eq_self _ (by omega) (by omega)
  have hcfg : mkLine x0 y0 x1 y1
      = (⟨x1, y1, (Dx : Int), (Dy : Int), sx, sy⟩,
         ⟨x0, y0, (Dx : Int) - (Dy : Int)⟩) := by
    simp only [mkLine, hwdx, hwdy, hwerr, ← hsxd, ← hsyd]
  have hsx1 : sx = 1 ∨ sx = -1 := by
    rw [hsxd]; split_ifs <;> simp
  have hsy1 : sy = 1 ∨ sy = -1 := by
    rw [hsyd]; split_ifs <;> simp
  have hxrel : x1 = x0 + (Dx : Int) * sx := by
    rw [hsxd]; split_ifs with h
    · rw [mul_one]; omega
    · rw [mul_neg_one]; omega
  have hyrel : y1 = y0 + (Dy : Int) * sy := by
    rw [hsyd]; split_ifs with h
    · rw [mul_one]; omega
    · rw [mul_neg_one]; omega
  have hplots : writeLinePlots x0 y0 x1 y1 fuel
      = lineRun ⟨x1, y1, (Dx : Int), (Dy : Int), sx, sy⟩
          ⟨x0, y0, (Dx : Int) - (Dy : Int)⟩ fuel := by
    rw [writeLinePlots, hcfg]
  by_cases hzz : Dx = 0 ∧ Dy = 0
  · -- degenerate: both endpoints coincide; the first exit test succeeds
    obtain ⟨hz1, hz2⟩ := hzz
    have hx01 : x0 = x1 := by omega
    have hy01 : y0 = y1 := by omega
    have hch := lineRun_char_of_pos
        (⟨x1, y1, (Dx : Int), (Dy : Int), sx, sy⟩ : BLine)
        (⟨x0, y0, (Dx : Int) - (Dy : Int)⟩ : BSt) 0
        (fun _ => x0) (fun _ => y0)
        (by intro n hn
            obtain rfl : n = 0 := by omega
            exact ⟨rfl, rfl⟩)
        (by intro n hn; omega)
        ⟨hx01, hy01⟩ fuel (by omega)
    rw [hplots]
    refine ⟨hch.1, ?_, hch.2.2.1, hch.2.2.2⟩
    rw [hch.2.1]; omega
  · by_cases hmaj : Dy ≤ Dx
    · -- x-major case
      have hdx1 : 1 ≤ Dx := by
        rcases Nat.eq_zero_or_pos Dx with h | h
        · exact absurd ⟨h, by omega⟩ hzz
        · exact h
      have hsafe : ∀ n : Nat, n < Dx →
          lineStepW ⟨x1, y1, (Dx : Int), (Dy : Int), sx, sy⟩
              (lineIter ⟨x1, y1, (Dx : Int), (Dy : Int), sx, sy⟩
                ⟨x0, y0, (Dx : Int) - (Dy : Int)⟩ n)
            = lineStep ⟨x1, y1, (Dx : Int), (Dy : Int), sx, sy⟩
              (lineIter ⟨x1, y1, (Dx : Int), (Dy : Int), sx, sy⟩
                ⟨x0, y0, (Dx : Int) - (Dy : Int)⟩ n) := by
        intro n hn
        have hb := errv_bounds (Dx : Int) (Dy : Int)
          (by omega) (by omega) (by omega) n
        have hform : lineIter ⟨x1, y1, (Dx : Int), (Dy : Int), sx, sy⟩
            ⟨x0, y0, (Dx : Int) - (Dy : Int)⟩ n
            = ⟨x0 + (n : Int) * sx,
               y0 + (errv (Dx : Int) (Dy : Int) n).2 * sy,
               (errv (Dx : Int) (Dy : Int) n).1⟩ :=
          lineIter_formula x0 y0 _
            (by show (1 : Int) ≤ (Dx : Int); omega)
            (by show (0 : Int) ≤ (Dy : Int); omega)
            (by show (Dy : Int) ≤ (Dx : Int); omega)
            n (by show (n : Int) ≤ (Dx : Int); push_cast; omega)
        rw [hform]
        refine lineStepW_eq_ideal _ _ ?_ ?_ ?_ ?_ ?_
        · exact ⟨by show (0 : Int) ≤ (Dy : Int); omega,
                 by show (Dy : Int) ≤ 8191; omega⟩
        · exact ⟨by show (0 : Int) ≤ (Dx : Int); omega,
                 by show (Dx : Int) ≤ 8191; omega⟩
        · show -12287 ≤ (errv (Dx : Int) (Dy : Int) n).1 ∧
              (errv (Dx : Int) (Dy : Int) n).1 ≤ 12287
          exact ⟨by omega, by omega⟩
        · show 2 * (errv (Dx : Int) (Dy : Int) n).1 > -(Dy : Int) →
              -32768 ≤ (x0 + (n : Int) * sx) + sx ∧
              (x0 + (n : Int) * sx) + sx ≤ 32767
          intro _
          rcases hsx1 with h | h <;> rw [h] at hxrel ⊢ <;>
            constructor <;> omega
        · show 2 * (errv (Dx : Int) (Dy : Int) n).1 < (Dx : Int) →
              -32768 ≤ (y0 + (errv (Dx : Int) (Dy : Int) n).2 * sy) + sy ∧
              (y0 + (errv (Dx : Int) (Dy : Int) n).2 * sy) + sy ≤ 32767
          intro hcond
          have hv1 : (errv (Dx : Int) (Dy : Int) (n + 1)).2
              = (errv (Dx : Int) (Dy : Int) n).2 + 1 := by
            rw [errv, if_pos hcond]
          have hvle : (errv (Dx : Int) (Dy : Int) (n + 1)).2 ≤ (Dy : Int) :=
            errv_v_le _ _ (by omega) (by omega) (by omega) (n + 1)
              (by push_cast; omega)
          have hvnn := errv_v_nonneg (Dx : Int) (Dy : Int) n
          rcases hsy1 with h | h <;> rw [h] at hyrel ⊢ <;>
            constructor <;> omega
      have hiterEq := lineIterW_eq_of_safe _ _ Dx hsafe
      have hpos : ∀ n : Nat, n ≤ Dx →
          (lineIterW ⟨x1, y1, (Dx : Int), (Dy : Int), sx, sy⟩
            ⟨x0, y0, (Dx : Int) - (Dy : Int)⟩ n).x = x0 + (n : Int) * sx ∧
          (lineIterW ⟨x1, y1, (Dx : Int), (Dy : Int), sx, sy⟩
            ⟨x0, y0, (Dx : Int) - (Dy : Int)⟩ n).y
            = y0 + (errv (Dx : Int) (Dy : Int) n).2 * sy := by
        intro n hn
        rw [hiterEq n hn]
        have hform : lineIter ⟨x1, y1, (Dx : Int), (Dy : Int), sx, sy⟩
            ⟨x0, y0, (Dx : Int) - (Dy : Int)⟩ n
            = ⟨x0 + (n : Int) * sx,
               y0 + (errv (Dx : Int) (Dy : Int) n).2 * sy,
               (errv (Dx : Int) (Dy : Int) n).1⟩ :=
          lineIter_formula x0 y0 _
            (by show (1 : Int) ≤ (Dx : Int); omega)
            (by show (0 : Int) ≤ (Dy : Int); omega)
            (by show (Dy : Int) ≤ (Dx : Int); omega)
            n (by show (n : Int) ≤ (Dx : Int); push_cast; omega)
        rw [hform]
        exact ⟨rfl, rfl⟩
      have hne : ∀ n : Nat, n < Dx →
          x0 + (n : Int) * sx ≠ x1 ∨
          y0 + (errv (Dx : Int) (Dy : Int) n).2 * sy ≠ y1 := by
        intro n hn
        left
        rcases hsx1 with h | h <;> rw [h] at hxrel ⊢ <;> omega
      have hMy : y0 + (errv (Dx : Int) (Dy : Int) Dx).2 * sy = y1 := by
        have hvf : (errv (Dx : Int) (Dy : Int) ((Dx : Int)).toNat).2 = (Dy : Int) :=
          errv_v_final _ _ (by omega) (by omega) (by omega)
        have ht : ((Dx : Int)).toNat = Dx := by omega
        rw [ht] at hvf
        rw [hvf]
        omega
      have hch := lineRun_char_of_pos
          (⟨x1, y1, (Dx : Int), (Dy : Int), sx, sy⟩ : BLine)
          (⟨x0, y0, (Dx : Int) - (Dy : Int)⟩ : BSt) Dx
          (fun n => x0 + (n : Int) * sx)
          (fun n => y0 + (errv (Dx : Int) (Dy : Int) n).2 * sy)
          hpos hne ⟨hxrel.symm, hMy⟩ fuel (by omega)
      rw [hplots]
      refine ⟨hch.1, ?_, ?_, hch.2.2.2⟩
      · rw [hch.2.1]; omega
      · have h00 : (x0 + ((0 : Nat) : Int) * sx,
            y0 + (errv (Dx : Int) (Dy : Int) 0).2 * sy) = (x0, y0) := by
          simp [errv]
        rw [← h00]
        exact hch.2.2.1
    · -- y-major case
      have hdy1 : 1 ≤ Dy := by omega
      have hsafe : ∀ n : Nat, n < Dy →
          lineStepW ⟨x1, y1, (Dx : Int), (Dy : Int), sx, sy⟩
              (lineIter ⟨x1, y1, (Dx : Int), (Dy : Int), sx, sy⟩
                ⟨x0, y0, (Dx : Int) - (Dy : Int)⟩ n)
            = lineStep ⟨x1, y1, (Dx : Int), (Dy : Int), sx, sy⟩
              (lineIter ⟨x1, y1, (Dx : Int), (Dy : Int), sx, sy⟩
                ⟨x0, y0, (Dx : Int) - (Dy : Int)⟩ n) := by
        intro n hn
        have hb := errv_bounds (Dy : Int) (Dx : Int)
          (by omega) (by omega) (by omega) n
        have hform : lineIter ⟨x1, y1, (Dx : Int), (Dy : Int), sx, sy⟩
            ⟨x0, y0, (Dx : Int) - (Dy : Int)⟩ n
            = ⟨x0 + (errv (Dy : Int) (Dx : Int) n).2 * sx,
               y0 + (n : Int) * sy,
               -(errv (Dy : Int) (Dx : Int) n).1⟩ :=
          lineIter_formula2 x0 y0 _
            (by show (1 : Int) ≤ (Dy : Int); omega)
            (by show (0 : Int) ≤ (Dx : Int); omega)
            (by show (Dx : Int) ≤ (Dy : Int); omega)
            n (by show (n : Int) ≤ (Dy : Int); push_cast; omega)
        rw [hform]
        refine lineStepW_eq_ideal _ _ ?_ ?_ ?_ ?_ ?_
        · exact ⟨by show (0 : Int) ≤ (Dy : Int); omega,
                 by show (Dy : Int) ≤ 8191; omega⟩
        · exact ⟨by show (0 : Int) ≤ (Dx : Int); omega,
                 by show (Dx : Int) ≤ 8191; omega⟩
        · show -12287 ≤ -(errv (Dy : Int) (Dx : Int) n).1 ∧
              -(errv (Dy : Int) (Dx : Int) n).1 ≤ 12287
          exact ⟨by omega, by omega⟩
        · show 2 * -(errv (Dy : Int) (Dx : Int) n).1 > -(Dy : Int) →
              -32768 ≤ (x0 + (errv (Dy : Int) (Dx : Int) n).2 * sx) + sx ∧
              (x0 + (errv (Dy : Int) (Dx : Int) n).2 * sx) + sx ≤ 32767
          intro hcond
          have hv1 : (errv (Dy : Int) (Dx : Int) (n + 1)).2
              = (errv (Dy : Int) (Dx : Int) n).2 + 1 := by
            rw [errv, if_pos (by omega)]
          have hvle : (errv (Dy : Int) (Dx : Int) (n + 1)).2 ≤ (Dx : Int) :=
            errv_v_le _ _ (by omega) (by omega) (by omega) (n + 1)
              (by push_cast; omega)
          have hvnn := errv_v_nonneg (Dy : Int) (Dx : Int) n
          rcases hsx1 with h | h <;> rw [h] at hxrel ⊢ <;>
            constructor <;> omega
        · show 2 * -(errv (Dy : Int) (Dx : Int) n).1 < (Dx : Int) →
              -32768 ≤ (y0 + (n : Int) * sy) + sy ∧
              (y0 + (n : Int) * sy) + sy ≤ 32767
          intro _
          rcases hsy1 with h | h <;> rw [h] at hyrel ⊢ <;>
            constructor <;> omega
      have hiterEq := lineIterW_eq_of_safe _ _ Dy hsafe
      have hpos : ∀ n : Nat, n ≤ Dy →
          (lineIterW ⟨x1, y1, (Dx : Int), (Dy : Int), sx, sy⟩
            ⟨x0, y0, (Dx : Int) - (Dy : Int)⟩ n).x
            = x0 + (errv (Dy : Int) (Dx : Int) n).2 * sx ∧
          (lineIterW ⟨x1, y1, (Dx : Int), (Dy : Int), sx, sy⟩
            ⟨x0, y0, (Dx : Int) - (Dy : Int)⟩ n).y = y0 + (n : Int) * sy := by
        intro n hn
        rw [hiterEq n hn]
        have hform : lineIter ⟨x1, y1, (Dx : Int), (Dy : Int), sx, sy⟩
            ⟨x0, y0, (Dx : Int) - (Dy : Int)⟩ n
            = ⟨x0 + (errv (Dy : Int) (Dx : Int) n).2 * sx,
               y0 + (n : Int) * sy,
               -(errv (Dy : Int) (Dx : Int) n).1⟩ :=
          lineIter_formula2 x0 y0 _
            (by show (1 : Int) ≤ (Dy : Int); omega)
            (by show (0 : Int) ≤ (Dx : Int); omega)
            (by show (Dx : Int) ≤ (Dy : Int); omega)
            n (by show (n : Int) ≤ (Dy : Int); push_cast; omega)
        rw [hform]
        exact ⟨rfl, rfl⟩
      have hne : ∀ n : Nat, n < Dy →
          x0 + (errv (Dy : Int) (Dx : Int) n).2 * sx ≠ x1 ∨
          y0 + (n : Int) * sy ≠ y1 := by
        intro n hn
        right
        rcases hsy1 with h | h <;> rw [h] at hyrel ⊢ <;> omega
      have hMx : x0 + (errv (Dy : Int) (Dx : Int) Dy).2 * sx = x1 := by
        have hvf : (errv (Dy : Int) (Dx : Int) ((Dy : Int)).toNat).2 = (Dx : Int) :=
          errv_v_final _ _ (by omega) (by omega) (by omega)
        have ht : ((Dy : Int)).toNat = Dy := by omega
        rw [ht] at hvf
        rw [hvf]
        omega
      have hch := lineRun_char_of_pos
          (⟨x1, y1, (Dx : Int), (Dy : Int), sx, sy⟩ : BLine)
          (⟨x0, y0, (Dx : Int) - (Dy : Int)⟩ : BSt) Dy
          (fun n => x0 + (errv (Dy : Int) (Dx : Int) n).2 * sx)
          (fun n => y0 + (n : Int) * sy)
          hpos hne ⟨hMx, hyrel.symm⟩ fuel (by omega)
      rw [hplots]
      refine ⟨hch.1, ?_, ?_, hch.2.2.2⟩
      · rw [hch.2.1]; omega
      · have h00 : (x0 + (errv (Dy : Int) (Dx : Int) 0).2 * sx,
            y0 + ((0 : Nat) : Int) * sy) = (x0, y0) := by
          simp [errv]
        rw [← h00]
        exact hch.2.2.1

/-- The configuration `writeLine(0, 0, 20000, 0)` builds. -/
def c20 : BLine := ⟨20000, 0, 20000, 0, 1, -1⟩

/-- The initial state of `writeLine(0, 0, 20000, 0)`. -/
def s20 : BSt := ⟨0, 0, 20000⟩

theorem mkLine20 : mkLine 0 0 20000 0 = (c20, s20) := rfl

/-- The states reachable in the run `writeLine(0, 0, 20000, 0)`:
after three iterations the loop is trapped at `y = -3`, `err = 14464`
(`e2 = 2·err` wraps to `28928 > 0 = -dy`, so `x` keeps stepping while
`28928 < 20000` fails forever, so `y` never returns to `0`). -/
def P20 (s : BSt) : Prop :=
  s = ⟨0, 0, 20000⟩ ∨ s = ⟨0, -1, -25536⟩ ∨ s = ⟨1, -2, -5536⟩ ∨
  (s.y = -3 ∧ s.err = 14464)

theorem P20_step (s : BSt) (h : P20 s) : P20 (lineStepW c20 s) := by
  rcases h with h | h | h | ⟨hy, he⟩
  · subst h; right; left; rfl
  · subst h; right; right; left; rfl
  · subst h; right; right; right; exact ⟨rfl, rfl⟩
  · obtain ⟨x, y, e⟩ := s
    simp only [BSt_y_mk, BSt_err_mk] at hy he
    subst hy; subst he
    right; right; right
    constructor
    · show (lineStepW c20 ⟨x, -3, 14464⟩).y = -3
      rfl
    · show (lineStepW c20 ⟨x, -3, 14464⟩).err = 14464
      rfl

theorem P20_notdone (s : BSt) (h : P20 s) : lineDone c20 s = false := by
  rcases h with h | h | h | ⟨hy, _⟩
  · subst h; rfl
  · subst h; rfl
  · subst h; rfl
  · obtain ⟨x, y, e⟩ := s
    simp only [BSt_y_mk] at hy
    subst hy
    show (x == (20000 : Int) && ((-3 : Int) == (0 : Int))) = false
    rw [show ((-3 : Int) == (0 : Int)) = false from rfl, Bool.and_false]

theorem lineRun20_never : ∀ (fuel : Nat) (s : BSt),
    P20 s → (lineRun c20 s fuel).2 = false := by
  intro fuel
  induction fuel with
  | zero => intro s _; rfl
  | succ f ih =>
    intro s hs
    have hnd := P20_notdone s hs
    simp only [lineRun, hnd, Bool.false_eq_true, if_false]
    exact ih (lineStepW c20 s) (P20_step s hs)

/-- C10: the Bresenham loop of `writeLine(0, 0, 20000, 0)` never reaches its
exit test successfully, for any amount of fuel: both endpoints are valid
`int16_t` coordinates, yet `e2 = 2*err` overflows `int16_t` and the wrapped
error dynamics trap the walk at `y = -3`, so `y == y1` never holds again. -/
theorem C10_counterexample : ¬ writeLineTerm 0 0 20000 0 := by
  rintro ⟨fuel, hterm⟩
  have hnever : (lineRun c20 s20 fuel).2 = false :=
    lineRun20_never fuel s20 (Or.inl rfl)
  have hplots : (writeLinePlots 0 0 20000 0 fuel).2 = false := by
    rw [writeLinePlots, mkLine20]
    exact hnever
  rw [hplots] at hterm
  exact Bool.false_ne_true hterm

/-- C10 (amended): whenever both endpoints are `int16_t` coordinates AND
both absolute deltas are at most 8191 (so that `e2 = 2*err` cannot overflow
`int16_t`), `writeLine` terminates, and any run given at least
`max |x1-x0| |y1-y0| + 1` loop iterations of fuel finishes with exactly
`max |x1-x0| |y1-y0| + 1` pixel plots. Without the delta bound the loop can
diverge (see the counterexample). -/
theorem C10_amended (x0 y0 x1 y1 : Int)
    (hx0 : -32768 ≤ x0 ∧ x0 ≤ 32767) (hy0 : -32768 ≤ y0 ∧ y0 ≤ 32767)
    (hx1 : -32768 ≤ x1 ∧ x1 ≤ 32767) (hy1 : -32768 ≤ y1 ∧ y1 ≤ 32767)
    (hdx : (x1 - x0).natAbs ≤ 8191) (hdy : (y1 - y0).natAbs ≤ 8191) :
    writeLineTerm x0 y0 x1 y1 ∧
    ∀ fuel : Nat, max (x1 - x0).natAbs (y1 - y0).natAbs + 1 ≤ fuel →
      (writeLinePlots x0 y0 x1 y1 fuel).2 = true ∧
      (writeLinePlots x0 y0 x1 y1 fuel).1.length
        = max (x1 - x0).natAbs (y1 - y0).natAbs + 1 := by
  constructor
  · exact ⟨max (x1 - x0).natAbs (y1 - y0).natAbs + 1,
      (writeLine_run_char x0 y0 x1 y1 hx0 hy0 hx1 hy1 hdx hdy _ le_rfl).1⟩
  · intro fuel hfc
    have h := writeLine_run_char x0 y0 x1 y1 hx0 hy0 hx1 hy1 hdx hdy fuel hfc
    exact ⟨h.1, h.2.1⟩

/-- Witness: `writeLine(0, 0, 3, 2)` terminates and a fuel-4 run plots
exactly `max 3 2 + 1 = 4` positions. -/
theorem C10_witness :
    writeLineTerm 0 0 3 2 ∧
    ∀ fuel : Nat, max ((3 : Int) - 0).natAbs ((2 : Int) - 0).natAbs + 1 ≤ fuel →
      (writeLinePlots 0 0 3 2 fuel).2 = true ∧
      (writeLinePlots 0 0 3 2 fuel).1.length
        = max ((3 : Int) - 0).natAbs ((2 : Int) - 0).natAbs + 1 :=
  C10_amended 0 0 3 2 (by decide) (by decide) (by decide) (by decide)
    (by decide) (by decide)

/-- C6: line drawing is NOT endpoint-symmetric. Both runs of the 4x1 line
terminate (fuel 5 suffices), but `writeLine(0,0,4,1)` plots `(2,0)` while
`writeLine(4,1,0,0)` does not (it plots `(2,1)` there instead): the plotted
sets differ. -/
theorem C6_counterexample :
    (writeLinePlots 0 0 4 1 5).2 = true ∧
    (writeLinePlots 4 1 0 0 5).2 = true ∧
    ((2 : Int), (0 : Int)) ∈ (writeLinePlots 0 0 4 1 5).1 ∧
    ((2 : Int), (0 : Int)) ∉ (writeLinePlots 4 1 0 0 5).1 := by
  refine ⟨?_, ?_, ?_, ?_⟩ <;> decide

/-- C6 (amended): in the overflow-free regime (both endpoints `int16_t`,
both absolute deltas at most 8191), runs in the two directions both
terminate, plot the same NUMBER of positions (`max |dx| |dy| + 1`), and
each plots both endpoints - but the plotted sets themselves can differ (see
the counterexample), so full endpoint symmetry does not hold. -/
theorem C6_amended (x0 y0 x1 y1 : Int)
    (hx0 : -32768 ≤ x0 ∧ x0 ≤ 32767) (hy0 : -32768 ≤ y0 ∧ y0 ≤ 32767)
    (hx1 : -32768 ≤ x1 ∧ x1 ≤ 32767) (hy1 : -32768 ≤ y1 ∧ y1 ≤ 32767)
    (hdx : (x1 - x0).natAbs ≤ 8191) (hdy : (y1 - y0).natAbs ≤ 8191) :
    ∀ fuel : Nat, max (x1 - x0).natAbs (y1 - y0).natAbs + 1 ≤ fuel →
      (writeLinePlots x0 y0 x1 y1 fuel).2 = true ∧
      (writeLinePlots x1 y1 x0 y0 fuel).2 = true ∧
      (writeLinePlots x0 y0 x1 y1 fuel).1.length
        = (writeLinePlots x1 y1 x0 y0 fuel).1.length ∧
      (x0, y0) ∈ (writeLinePlots x0 y0 x1 y1 fuel).1 ∧
      (x1, y1) ∈ (writeLinePlots x0 y0 x1 y1 fuel).1 ∧
      (x0, y0) ∈ (writeLinePlots x1 y1 x0 y0 fuel).1 ∧
      (x1, y1) ∈ (writeLinePlots x1 y1 x0 y0 fuel).1 := by
  intro fuel hfc
  have h1 := writeLine_run_char x0 y0 x1 y1 hx0 hy0 hx1 hy1 hdx hdy fuel hfc
  have h2 := writeLine_run_char x1 y1 x0 y0 hx1 hy1 hx0 hy0
    (by omega) (by omega) fuel (by omega)
  refine ⟨h1.1, h2.1, ?_, h1.2.2.1, h1.2.2.2, h2.2.2.2, h2.2.2.1⟩
  rw [h1.2.1, h2.2.1]
  omega

/-- Witness: both directions of the 3x2 line terminate within fuel 4,
plot 4 positions each, and plot both endpoints. -/
theorem C6_witness :
    (writeLinePlots 0 0 3 2 4).2 = true ∧
    (writeLinePlots 3 2 0 0 4).2 = true ∧
    (writeLinePlots 0 0 3 2 4).1.length = (writeLinePlots 3 2 0 0 4).1.length ∧
    ((0 : Int), (0 : Int)) ∈ (writeLinePlots 0 0 3 2 4).1 ∧
    ((3 : Int), (2 : Int)) ∈ (writeLinePlots 0 0 3 2 4).1 ∧
    ((0 : Int), (0 : Int)) ∈ (writeLinePlots 3 2 0 0 4).1 ∧
    ((3 : Int), (2 : Int)) ∈ (writeLinePlots 3 2 0 0 4).1 :=
  C6_amended 0 0 3 2 (by decide) (by decide) (by decide) (by decide)
    (by decide) (by decide) 4 (by decide)
